import Mathlib

/-!
# ecrax/slides: the deck loader, the navigation cursor, the change watcher and the frame joins

A shallow embedding of `main.go`.

* A Go `string` is an immutable sequence of code units.  It is embedded as `Str = List Char`,
  one list element per unit.  The delimiter `"---"`, the trim cutset `"\r\n"` and the line
  separator `"\n"` are ASCII, for which `strings.Split`, `strings.Count`, `strings.TrimLeft`
  and `strings.TrimRight` work unit by unit, so the embedding of `Load` reads the same whether
  an element stands for a byte or for a code point.  For the width functions of `lipgloss` an
  element is a byte, and the runes are obtained by decoding UTF-8 as Go's `range` does.
* Go `int` values are embedded as `Int`.  The arithmetic of `Update` is `currentSlide++` below
  `len(slides)-1`, `currentSlide--` above `0` and `len(slides)-1`, none of which can leave the
  64-bit range; the sum `currentSlide+1` of `paging` is reduced to that range explicitly.
* The file system is an oracle indexed by the number of system calls made so far, so that the
  file may change between (and during) events.  The package-level variable `fileInfo` lives in
  the `World` next to it.
* `log.Fatal` and a nil dereference end the process; they are outcomes of `Update`.
* The functions of `strings`, `fmt`, `unicode/utf8`, `lipgloss` and `reflow/ansi` that
  `main.go` calls are embedded from those libraries; the table of `go-runewidth` is a
  parameter.
-/

namespace Slides

/-- A Go string, one list element per code unit. -/
abbrev Str := List Char

/-! ## The parts of package `strings` used by `Load` -/

/-- Go `strings.HasPrefix(s, prefix)`. -/
def HasPrefix (s pre : Str) : Bool := pre.isPrefixOf s

/-- Go `strings.Index(s, substr)`: the index of the first instance of `substr` in `s`;
`none` stands for the result `-1`. -/
def Index : Str → Str → Option Nat
  | [], sep => if sep.isEmpty then some 0 else none
  | c :: t, sep => if HasPrefix (c :: t) sep then some 0 else (Index t sep).map (· + 1)

/-- The loop of Go `strings.Count`: `for { i := Index(s, substr); if i == -1 { return n };
n++; s = s[i+len(substr):] }`.  The first argument bounds the number of iterations. -/
def countLoop (sep : Str) : Nat → Str → Nat
  | 0, _ => 0
  | fuel + 1, s =>
    match Index s sep with
    | none => 0
    | some i => countLoop sep fuel (s.drop (i + sep.length)) + 1

/-- Go `strings.Count(s, substr)`: the number of non-overlapping instances of `substr` in `s`
(one more than the number of units of `s` when `substr` is empty).  Every iteration of the loop
consumes at least one unit of `s`, so `s.length` iterations are enough (`countLoop_fuel`). -/
def Count (s sep : Str) : Nat :=
  if sep.isEmpty then s.length + 1 else countLoop sep s.length s

/-- The loop of Go `strings.genSplit`: `for i < n { m := Index(s, sep); if m < 0 { break };
a[i] = s[:m]; s = s[m+len(sep):]; i++ }; a[i] = s; return a[:i+1]`.  The first argument is
`n - i`. -/
def splitLoop (sep : Str) : Nat → Str → List Str
  | 0, s => [s]
  | k + 1, s =>
    match Index s sep with
    | none => [s]
    | some m => s.take m :: splitLoop sep k (s.drop (m + sep.length))

/-- Go `strings.Split(s, sep)`, that is `genSplit(s, sep, 0, -1)`: with an empty separator the
string is exploded into its units; otherwise `n = Count(s, sep) + 1`, capped at `len(s) + 1`,
and the loop runs with `n - 1`. -/
def Split (s sep : Str) : List Str :=
  if sep.isEmpty then s.map (fun c => [c])
  else splitLoop sep (min (Count s sep + 1) (s.length + 1) - 1) s

/-- Go `strings.TrimRight(s, cutset)`: `s` without its trailing units contained in `cutset`. -/
def TrimRight (s cutset : Str) : Str := s.rdropWhile (fun c => cutset.contains c)

/-- Go `strings.TrimLeft(s, cutset)`: `s` without its leading units contained in `cutset`. -/
def TrimLeft (s cutset : Str) : Str := s.dropWhile (fun c => cutset.contains c)

/-! ## The operating system -/

/-- Go `time.Time`; `!=` on it compares the three fields. -/
structure Time where
  wall : Nat
  ext : Int
  loc : Nat
  deriving DecidableEq, Repr

/-- The part of `os.FileInfo` that the program reads. -/
structure FileInfo where
  ModTime : Time
  IsDir : Bool
  deriving DecidableEq, Repr

/-- One state of the file system: what `os.Stat` and `os.ReadFile` answer for a path. -/
structure FS where
  Stat : String → Except String FileInfo
  ReadFile : String → Except String Str

/-- The process environment: the file system seen by each successive system call, the number
of system calls made so far, the package-level variable `fileInfo` (`none` is `nil`), and a
ghost counter of the invocations of `Load`. -/
structure World where
  fs : Nat → FS
  clock : Nat
  fileInfo : Option FileInfo
  loads : Nat

/-- Go `os.Stat(name)`. -/
def osStat (w : World) (name : String) : Except String FileInfo × World :=
  ((w.fs w.clock).Stat name, { w with clock := w.clock + 1 })

/-- Go `os.ReadFile(name)`. -/
def osReadFile (w : World) (name : String) : Except String Str × World :=
  ((w.fs w.clock).ReadFile name, { w with clock := w.clock + 1 })

/-! ## The model -/

/-- The two fields of `viewport.Model` that the program writes. -/
structure Viewport where
  Width : Int
  Height : Int
  deriving DecidableEq, Repr

/-- The Go struct `model`. -/
structure model where
  slides : List Str
  currentSlide : Int
  viewport : Viewport
  fileName : String
  date : String
  author : String
  deriving DecidableEq, Repr

/-- The messages `Update` distinguishes; a key message is given by its `String()`. -/
inductive Msg where
  | WindowSizeMsg (Width Height : Int)
  | KeyMsg (key : String)
  | fileWatchMsg
  | other
  deriving DecidableEq, Repr

/-- The commands the program returns: `nil`, `tea.Quit` and `fileWatchCmd()`. -/
inductive Cmd where
  | nil
  | Quit
  | fileWatch
  deriving DecidableEq, Repr

/-- The constant `delimiter`, `"---"`. -/
def delimiter : Str := ['-', '-', '-']

/-- The cutset `"\r\n"` of the two trim calls in `Load`. -/
def crlf : Str := ['\r', '\n']

/-- Lines 129-135 of `Load`: split the content on the delimiter and trim every fragment, first
on the right, then on the left. -/
def parseSlides (content : Str) : List Str :=
  (Split content delimiter).map (fun s => TrimLeft (TrimRight s crlf) crlf)

/-- What a call of `Load` leaves behind: the returned error (`none` is `nil`), the model behind
the pointer receiver, and the world. -/
structure LoadResult where
  err : Option String
  m : model
  w : World

/-- The method `(m *model) Load() error`. -/
def Load (w : World) (m : model) : LoadResult :=
  let w0 : World := { w with loads := w.loads + 1 }
  if m.fileName = "" then ⟨some "no file specified", m, w0⟩
  else
    match osStat w0 m.fileName with
    | (.error e, w1) => ⟨some e, m, w1⟩
    | (.ok s, w1) =>
      if s.IsDir then ⟨some "can not read directories", m, w1⟩
      else
        match osReadFile w1 m.fileName with
        | (.error e, w2) => ⟨some e, m, w2⟩
        | (.ok b, w2) => ⟨none, { m with slides := parseSlides b }, w2⟩

/-- The method `(m model) Init() tea.Cmd`; the error of `os.Stat` is discarded and `fileInfo`
is `nil` when the call fails. -/
def Init (w : World) (m : model) : Cmd × World :=
  if m.fileName = "" then (Cmd.nil, w)
  else
    match osStat w m.fileName with
    | (.error _, w1) => (Cmd.fileWatch, { w1 with fileInfo := none })
    | (.ok s, w1) => (Cmd.fileWatch, { w1 with fileInfo := some s })

/-- How a call of `Update` ends: it returns a model and a command, or `log.Fatal` ends the
process, or the process panics on a nil `fileInfo`.  Each carries the state at that point. -/
inductive Outcome where
  | ok (m : model) (cmd : Cmd) (w : World)
  | fatal (err : String) (m : model) (w : World)
  | panic (m : model) (w : World)

/-- The method `(m model) Update(msg tea.Msg) (tea.Model, tea.Cmd)`. -/
def Update (w : World) (m : model) : Msg → Outcome
  | .WindowSizeMsg width height =>
    .ok { m with viewport := { m.viewport with Width := width, Height := height } } .nil w
  | .KeyMsg key =>
    if key = "ctrl+c" ∨ key = "q" then .ok m .Quit w
    else if key = "left" then
      .ok (if m.currentSlide > 0 then { m with currentSlide := m.currentSlide - 1 } else m) .nil w
    else if key = "right" ∨ key = " " then
      .ok (if m.currentSlide < (m.slides.length : Int) - 1
            then { m with currentSlide := m.currentSlide + 1 } else m) .nil w
    else .ok m .nil w
  | .fileWatchMsg =>
    match osStat w m.fileName with
    | (.error _, w1) => .ok m .fileWatch w1
    | (.ok newFileInfo, w1) =>
      match w1.fileInfo with
      | none => .panic m w1
      | some old =>
        if newFileInfo.ModTime ≠ old.ModTime then
          let r := Load { w1 with fileInfo := some newFileInfo } m
          match r.err with
          | some loadErr => .fatal loadErr r.m r.w
          | none =>
            .ok (if r.m.currentSlide ≥ (r.m.slides.length : Int)
                  then { r.m with currentSlide := (r.m.slides.length : Int) - 1 } else r.m)
              .fileWatch r.w
        else .ok m .fileWatch w1
  | .other => .ok m .nil w

/-- The function `newModel`: the model built at startup from `os.Args`, the result of
`user.Current()` (its `Name`) and the formatted date; an error is a `log.Fatal`. -/
def newModel (w : World) (args : List String) (currentUser : Except String String)
    (today : String) : Except String (model × World) :=
  match args with
  | _ :: fileName :: _ =>
    let author := match currentUser with
      | .error _ => "me"
      | .ok name => name
    let r := Load w
      { slides := [], currentSlide := 0, viewport := ⟨0, 0⟩, fileName := fileName,
        date := today, author := author }
    match r.err with
    | some e => .error ("something went wrong: " ++ e)
    | none => .ok (r.m, r.w)
  | _ => .error "please specify a file to open"

/-- The event loop of the terminal runtime: messages are handled one at a time, each to
completion, until the process ends. -/
def run (w : World) (m : model) : List Msg → Outcome
  | [] => .ok m .nil w
  | msg :: rest =>
    match Update w m msg with
    | .ok m1 _ w1 => run w1 m1 rest
    | o => o

/-- The indexing `m.slides[m.currentSlide]` of `View`; `none` is the out-of-range panic. -/
def currentSlideText (m : model) : Option Str :=
  if 0 ≤ m.currentSlide then m.slides[m.currentSlide.toNat]? else none

/-! ## The parts of `lipgloss` and `reflow/ansi` used by the two join functions

The table of `go-runewidth` is a parameter `runeWidth` of these definitions.  For them an
element of a `Str` is a byte (a `Char` below 256); the runes of a string are obtained by
decoding it as UTF-8, as Go's `range` over a string does. -/

/-- The constant `utf8.RuneError`, U+FFFD. -/
def RuneError : Char := Char.ofNat 0xFFFD

/-- Whether `b1` is acceptable as the second byte of a UTF-8 sequence that starts with `b0`
(the accept ranges of Go `unicode/utf8`). -/
def secondOk (b0 b1 : Nat) : Bool :=
  decide ((if b0 = 0xE0 then 0xA0 else if b0 = 0xF0 then 0x90 else 0x80) ≤ b1) &&
  decide (b1 ≤ (if b0 = 0xED then 0x9F else if b0 = 0xF4 then 0x8F else 0xBF))

/-- Whether `b` is a UTF-8 continuation byte. -/
def isCont (b : Nat) : Bool := decide (0x80 ≤ b) && decide (b ≤ 0xBF)

/-- The two-byte case of `decodeRune`: the lead byte `c0` is in `C2..DF`. -/
def decodeTwo (c0 : Char) : Str → Char × Nat
  | c1 :: _ =>
    if isCont c1.toNat then
      (Char.ofNat ((c0.toNat - 0xC0) * 0x40 + (c1.toNat - 0x80)), 2)
    else (RuneError, 1)
  | _ => (RuneError, 1)

/-- The three-byte case of `decodeRune`: the lead byte `c0` is in `E0..EF`. -/
def decodeThree (c0 : Char) : Str → Char × Nat
  | c1 :: c2 :: _ =>
    if secondOk c0.toNat c1.toNat && isCont c2.toNat then
      (Char.ofNat ((c0.toNat - 0xE0) * 0x1000 + (c1.toNat - 0x80) * 0x40
        + (c2.toNat - 0x80)), 3)
    else (RuneError, 1)
  | _ => (RuneError, 1)

/-- The four-byte case of `decodeRune`: the lead byte `c0` is in `F0..F4`. -/
def decodeFour (c0 : Char) : Str → Char × Nat
  | c1 :: c2 :: c3 :: _ =>
    if secondOk c0.toNat c1.toNat && isCont c2.toNat && isCont c3.toNat then
      (Char.ofNat ((c0.toNat - 0xF0) * 0x40000 + (c1.toNat - 0x80) * 0x1000
        + (c2.toNat - 0x80) * 0x40 + (c3.toNat - 0x80)), 4)
    else (RuneError, 1)
  | _ => (RuneError, 1)

/-- Go `utf8.DecodeRuneInString` on a string of bytes: the first rune and the number of bytes
it occupies; bytes that do not start a well-formed sequence give `RuneError` and one byte. -/
def decodeRune : Str → Char × Nat
  | [] => (RuneError, 0)
  | c0 :: rest =>
    if c0.toNat < 0x80 then (c0, 1)
    else if 0xC2 ≤ c0.toNat ∧ c0.toNat ≤ 0xDF then decodeTwo c0 rest
    else if 0xE0 ≤ c0.toNat ∧ c0.toNat ≤ 0xEF then decodeThree c0 rest
    else if 0xF0 ≤ c0.toNat ∧ c0.toNat ≤ 0xF4 then decodeFour c0 rest
    else (RuneError, 1)

/-- The runes that Go `for _, c := range s` yields on a string of bytes: decode a rune, step
over its bytes, repeat.  The first argument is the number of bytes still to step over. -/
def decodeFrom : Nat → Str → List Char
  | _, [] => []
  | skip + 1, _ :: t => decodeFrom skip t
  | 0, c :: t => (decodeRune (c :: t)).1 :: decodeFrom ((decodeRune (c :: t)).2 - 1) t

/-- The runes of a string of bytes. -/
def decodeRunes (s : Str) : List Char := decodeFrom 0 s

/-- The function `ansi.IsTerminator` of `reflow`: the unit ends an escape sequence. -/
def IsTerminator (c : Char) : Bool :=
  (0x40 ≤ c.toNat && c.toNat ≤ 0x5a) || (0x61 ≤ c.toNat && c.toNat ≤ 0x7a)

/-- The loop of `ansi.PrintableRuneWidth` of `reflow`: `for _, c := range s { if c == Marker
{ ansi = true } else if ansi { if IsTerminator(c) { ansi = false } } else
{ n += runewidth.RuneWidth(c) } }`.  The Boolean argument is the variable `ansi`. -/
def printableLoop (runeWidth : Char → Nat) : Bool → Str → Nat
  | _, [] => 0
  | ansi, c :: t =>
    if c = '\x1b' then printableLoop runeWidth true t
    else if ansi then printableLoop runeWidth (!IsTerminator c) t
    else runeWidth c + printableLoop runeWidth false t

/-- The function `ansi.PrintableRuneWidth` of `reflow`: the cell width of a line, escape
sequences ignored; the loop ranges over the runes of the line. -/
def PrintableRuneWidth (runeWidth : Char → Nat) (s : Str) : Nat :=
  printableLoop runeWidth false (decodeRunes s)

/-- The function `getLines` of `lipgloss`: the lines of a string and the width of the widest
one. -/
def getLines (runeWidth : Char → Nat) (s : Str) : List Str × Nat :=
  (Split s ['\n'],
    (Split s ['\n']).foldl
      (fun widest l =>
        if widest < PrintableRuneWidth runeWidth l then PrintableRuneWidth runeWidth l
        else widest) 0)

/-- The function `lipgloss.Width`: the cell width of the widest line of a string. -/
def Width (runeWidth : Char → Nat) (str : Str) : Nat :=
  (Split str ['\n']).foldl
    (fun width l =>
      if PrintableRuneWidth runeWidth l > width then PrintableRuneWidth runeWidth l
      else width) 0

/-- The function `lipgloss.Height`: `strings.Count(str, "\n") + 1`. -/
def Height (str : Str) : Nat := Count str ['\n'] + 1

/-- The method `whitespace.render` of `lipgloss` with no option set: `width` blanks, none
when `width` is not positive. -/
def render (width : Int) : Str := List.replicate width.toNat ' '

/-- The function `lipgloss.PlaceHorizontal(width, lipgloss.Left, str)`: the string itself when
it is at least `width` cells wide, otherwise every line followed by the blanks that bring it
to `width` cells, the lines separated by `'\n'`. -/
def PlaceHorizontal (runeWidth : Char → Nat) (width : Int) (str : Str) : Str :=
  let lines := (getLines runeWidth str).1
  let contentWidth : Int := (getLines runeWidth str).2
  let gap := width - contentWidth
  if gap ≤ 0 then str
  else
    List.intercalate ['\n']
      (lines.map (fun l =>
        l ++ render (gap + max 0 (contentWidth - (PrintableRuneWidth runeWidth l : Int)))))

/-- The function `lipgloss.PlaceVertical(height, lipgloss.Top, str)`: the string itself when it
has at least `height` lines, otherwise the string, a `'\n'`, and `gap` blank lines of the width
of the string separated by `'\n'`. -/
def PlaceVertical (runeWidth : Char → Nat) (height : Int) (str : Str) : Str :=
  let contentHeight : Int := (Count str ['\n'] : Int) + 1
  let gap := height - contentHeight
  if gap ≤ 0 then str
  else
    let emptyLine := render ((getLines runeWidth str).2 : Int)
    str ++ ['\n'] ++ List.intercalate ['\n'] (List.replicate gap.toNat emptyLine)

/-- The function `JoinHorizontal` of `main.go`.  The strings are byte sequences and `+` joins
the bytes; the widths are measured on the runes decoded from them. -/
def JoinHorizontal (runeWidth : Char → Nat) (left right : Str) (width : Int) : Str :=
  let w := width - (Width runeWidth right : Int)
  PlaceHorizontal runeWidth w left ++ right

/-- The function `JoinVertical` of `main.go`. -/
def JoinVertical (runeWidth : Char → Nat) (top bottom : Str) (height : Int) : Str :=
  let h := height - (Height bottom : Int)
  PlaceVertical runeWidth h top ++ bottom

/-! ## Words of the specification, for comparison -/

/-- The number of occurrences of `sep` as a plain substring of `s`: the number of positions of
`s` at which `sep` starts, overlapping occurrences included. -/
def occurrences (s sep : Str) : Nat :=
  (s.tails.filter (fun t => HasPrefix t sep)).length

/-- Four dashes in a row. -/
def dashes4 : Str := ['-', '-', '-', '-']

/-- The slide `s` is the fragment `f` without its leading and trailing newline runs: `s` has
no newline or carriage return at either end, and `f` is `s` between two runs of them. -/
def StrippedOf (s f : Str) : Prop :=
  (∀ c, s.head? = some c → c ≠ '\n' ∧ c ≠ '\r') ∧
  (∀ c, s.getLast? = some c → c ≠ '\n' ∧ c ≠ '\r') ∧
  ∃ pre suf : Str, f = pre ++ s ++ suf ∧
    (∀ c ∈ pre, c = '\n' ∨ c = '\r') ∧ (∀ c ∈ suf, c = '\n' ∨ c = '\r')

/-- The cursor invariant: `0 <= currentSlide < len(slides)`. -/
def WellIndexed (m : model) : Prop :=
  0 ≤ m.currentSlide ∧ m.currentSlide < (m.slides.length : Int)

/-- The world a call of `Load` receives from a timer tick that saw `newFileInfo`: one system
call later, with the baseline already replaced. -/
def reloadWorld (w : World) (newFileInfo : FileInfo) : World :=
  { w with clock := w.clock + 1, fileInfo := some newFileInfo }

/-- Whether a scan that starts in state `ansi` ends inside an escape sequence: the value of
the variable `ansi` of `PrintableRuneWidth` after the last unit. -/
def ansiState : Bool → Str → Bool
  | ansi, [] => ansi
  | ansi, c :: t =>
    if c = '\x1b' then ansiState true t
    else if ansi then ansiState (!IsTerminator c) t
    else ansiState false t

/-- Whether the bytes are a proper beginning of a well-formed multi-byte UTF-8 sequence: more
bytes could complete them to one rune. -/
def incompleteRune : Str → Bool
  | [c0] => decide (0xC2 ≤ c0.toNat) && decide (c0.toNat ≤ 0xF4)
  | [c0, c1] => decide (0xE0 ≤ c0.toNat) && decide (c0.toNat ≤ 0xF4) && secondOk c0.toNat c1.toNat
  | [c0, c1, c2] =>
    decide (0xF0 ≤ c0.toNat) && decide (c0.toNat ≤ 0xF4) && secondOk c0.toNat c1.toNat
      && isCont c2.toNat
  | _ => false

/-- Whether a string of bytes ends inside an incomplete UTF-8 sequence, scanning as
`decodeFrom` does. -/
def endsIncomplete : Nat → Str → Bool
  | _, [] => false
  | skip + 1, _ :: t => endsIncomplete skip t
  | 0, c :: t => incompleteRune (c :: t) || endsIncomplete ((decodeRune (c :: t)).2 - 1) t

/-- The rows of a block of text: its lines. -/
def rows (s : Str) : List Str := Split s ['\n']

/-! ## Fixtures -/

/-- A file system in which every path is a regular file with the given time and content. -/
def fileFS (t : Time) (content : Str) : FS :=
  { Stat := fun _ => .ok ⟨t, false⟩, ReadFile := fun _ => .ok content }

/-- A file system in which every path is a directory. -/
def dirFS (t : Time) : FS :=
  { Stat := fun _ => .ok ⟨t, true⟩, ReadFile := fun _ => .error "is a directory" }

/-- A file system in which no path exists. -/
def missingFS : FS :=
  { Stat := fun _ => .error "no such file or directory",
    ReadFile := fun _ => .error "no such file or directory" }

/-- A world whose file system never changes, with no baseline stored yet. -/
def staticWorld (fs : FS) : World :=
  { fs := fun _ => fs, clock := 0, fileInfo := none, loads := 0 }

/-- The model `newModel` builds before it calls `Load`. -/
def blankModel (fileName : String) : model :=
  { slides := [], currentSlide := 0, viewport := ⟨0, 0⟩, fileName := fileName,
    date := "04-11-2026", author := "me" }

/-- Midnight, a modification time. -/
def t0 : Time := ⟨0, 0, 0⟩

/-- A later modification time. -/
def t1 : Time := ⟨1, 0, 0⟩

/-- A file system that holds a three-slide deck for the first three system calls and a
one-slide deck with a later modification time from then on. -/
def shrinkingFS (k : Nat) : FS :=
  if k < 3 then fileFS t0 "a---b---c".toList else fileFS t1 "a".toList

/-- The world of `shrinkingFS` at startup. -/
def shrinkingWorld : World :=
  { fs := shrinkingFS, clock := 0, fileInfo := none, loads := 0 }

/-- A world whose file system never changes, in the event loop: the baseline stored by `Init`
is a regular file with modification time `t0`. -/
def tickWorld (fs : FS) : World :=
  { fs := fun _ => fs, clock := 0, fileInfo := some ⟨t0, false⟩, loads := 0 }

/-! ## The page indicator -/

/-- The value of a Go `int` expression: the mathematical result reduced to the 64-bit
two's-complement range. -/
def wrapInt (x : Int) : Int := (x + 2 ^ 63) % 2 ^ 64 - 2 ^ 63

/-- The base-10 loop of Go `fmt.fmtInteger`: `for u >= 10 { i--; next := u / 10;
buf[i] = byte('0' + u - next*10); u = next }; i--; buf[i] = digits[u]`, writing the buffer from
its end.  The first argument bounds the number of iterations. -/
def fmtDigits : Nat → Nat → Str → Str
  | 0, u, buf => Nat.digitChar u :: buf
  | fuel + 1, u, buf =>
    if u ≥ 10 then fmtDigits fuel (u / 10) (Nat.digitChar (u - u / 10 * 10) :: buf)
    else Nat.digitChar u :: buf

/-- The verb `%v` of Go `fmt` on an `int`: the decimal digits of the absolute value, after a
`-` when the value is negative.  The loop divides `u` by ten in every iteration, so `u`
iterations are enough. -/
def fmtInteger (v : Int) : Str :=
  if v < 0 then '-' :: fmtDigits v.natAbs v.natAbs [] else fmtDigits v.natAbs v.natAbs []

/-- The method `(m model) paging() string`: `fmt.Sprintf("%v / %v", m.currentSlide+1,
len(m.slides))`. -/
def paging (m : model) : Str :=
  fmtInteger (wrapInt (m.currentSlide + 1)) ++ [' ', '/', ' '] ++
    fmtInteger (m.slides.length : Int)

/-- The number a string of decimal digits denotes. -/
def decimalValue (ds : Str) : Nat :=
  ds.foldl (fun acc c => 10 * acc + (c.toNat - '0'.toNat)) 0

/-- The string `s` is the decimal rendering of the integer `v`: a `-` exactly when `v` is
negative, then a non-empty string of decimal digits, without a leading zero unless it is `"0"`,
that denotes the absolute value of `v`. -/
def IsDecimalOf (s : Str) (v : Int) : Prop :=
  ∃ ds : Str, s = (if v < 0 then ['-'] else []) ++ ds ∧ ds ≠ [] ∧
    (∀ c ∈ ds, c.isDigit = true) ∧ (ds.head? = some '0' → ds = ['0']) ∧
    decimalValue ds = v.natAbs

/-- The table of `go-runewidth` on ASCII: control characters take no cell, the others one;
every other code point is given one cell here. -/
def asciiWidth (c : Char) : Nat := if c.toNat < 32 ∨ c.toNat = 127 then 0 else 1

/-- The table of `go-runewidth` on the runes used here: control characters take no cell, CJK
unified ideographs two, every other rune one. -/
def cellWidth (c : Char) : Nat :=
  if c.toNat < 32 ∨ c.toNat = 127 then 0
  else if 0x4E00 ≤ c.toNat ∧ c.toNat ≤ 0x9FFF then 2
  else 1

/-- A file system that holds a two-slide deck at every system call but the third, at which the
file is missing. -/
def flickeringFS (k : Nat) : FS :=
  if k = 2 then missingFS else fileFS t0 "a---b".toList

/-- The world of `flickeringFS` at startup. -/
def flickeringWorld : World :=
  { fs := flickeringFS, clock := 0, fileInfo := none, loads := 0 }

/-! ## Lemmas on `Index`, `Count` and `Split` -/

theorem hasPrefix_iff (s pre : Str) : HasPrefix s pre = true ↔ pre <+: s := by
  unfold HasPrefix
  exact List.isPrefixOf_iff_prefix

theorem Index_some_le {sep : Str} : ∀ {s : Str} {m : Nat},
    Index s sep = some m → m + sep.length ≤ s.length
  | [], m, h => by
    unfold Index at h
    split at h
    · rename_i he
      have : sep = [] := by simpa using he
      subst this
      simp at h
      simp [← h]
    · simp at h
  | c :: t, m, h => by
    unfold Index at h
    split at h
    · rename_i hp
      have hm : m = 0 := by simpa using h.symm
      subst hm
      have := ((hasPrefix_iff _ _).1 hp).length_le
      simpa using this
    · cases hi : Index t sep with
      | none => simp [hi] at h
      | some k =>
        simp [hi] at h
        have := Index_some_le hi
        subst h
        simp
        omega

theorem Index_some_prefix {sep : Str} : ∀ {s : Str} {m : Nat},
    Index s sep = some m → sep <+: s.drop m
  | [], m, h => by
    unfold Index at h
    split at h
    · rename_i he
      have : sep = [] := by simpa using he
      subst this
      simp
    · simp at h
  | c :: t, m, h => by
    unfold Index at h
    split at h
    · rename_i hp
      have hm : m = 0 := by simpa using h.symm
      subst hm
      exact (hasPrefix_iff _ _).1 hp
    · cases hi : Index t sep with
      | none => simp [hi] at h
      | some k =>
        simp [hi] at h
        subst h
        simpa using Index_some_prefix hi

theorem countLoop_le {sep : Str} (hsep : sep ≠ []) : ∀ (fuel : Nat) (s : Str),
    countLoop sep fuel s ≤ s.length
  | 0, s => by simp [countLoop]
  | fuel + 1, s => by
    unfold countLoop
    cases hi : Index s sep with
    | none => simp
    | some i =>
      simp only
      have h1 := Index_some_le hi
      have h2 := countLoop_le hsep fuel (s.drop (i + sep.length))
      have h3 : 0 < sep.length := List.length_pos.2 hsep
      simp only [List.length_drop] at h2
      omega

theorem countLoop_fuel {sep : Str} (hsep : sep ≠ []) : ∀ (fuel : Nat) (s : Str),
    s.length ≤ fuel → countLoop sep fuel s = countLoop sep s.length s
  | 0, s, h => by
    have : s.length = 0 := by omega
    rw [this]
  | fuel + 1, s, h => by
    cases s with
    | nil =>
      have : Index ([] : Str) sep = none := by
        unfold Index
        simp [hsep]
      simp [countLoop, this]
    | cons c t =>
      simp only [List.length_cons]
      unfold countLoop
      cases hi : Index (c :: t) sep with
      | none => rfl
      | some i =>
        simp only
        have h1 := Index_some_le hi
        have h3 : 0 < sep.length := List.length_pos.2 hsep
        have hl : ((c :: t).drop (i + sep.length)).length ≤ t.length := by
          simp only [List.length_drop, List.length_cons] at *
          omega
        simp only [List.length_cons] at h
        rw [countLoop_fuel hsep fuel _ (by omega), countLoop_fuel hsep t.length _ hl]

theorem length_splitLoop_countLoop (sep : Str) : ∀ (fuel : Nat) (s : Str),
    (splitLoop sep (countLoop sep fuel s) s).length = countLoop sep fuel s + 1
  | 0, s => by simp [countLoop, splitLoop]
  | fuel + 1, s => by
    unfold countLoop
    cases hi : Index s sep with
    | none => simp [splitLoop]
    | some i =>
      simp only
      unfold splitLoop
      simp only [hi, List.length_cons]
      rw [length_splitLoop_countLoop sep fuel]

theorem Split_eq_splitLoop {sep : Str} (hsep : sep ≠ []) (s : Str) :
    Split s sep = splitLoop sep (Count s sep) s := by
  have he : sep.isEmpty = false := by
    cases sep with
    | nil => exact absurd rfl hsep
    | cons _ _ => rfl
  have hle : Count s sep ≤ s.length := by
    unfold Count
    simp only [he]
    exact countLoop_le hsep _ _
  have hn : min (Count s sep + 1) (s.length + 1) - 1 = Count s sep := by omega
  unfold Split
  rw [hn]
  simp [he]

theorem length_Split {sep : Str} (hsep : sep ≠ []) (s : Str) :
    (Split s sep).length = Count s sep + 1 := by
  have he : sep.isEmpty = false := by
    cases sep with
    | nil => exact absurd rfl hsep
    | cons _ _ => rfl
  rw [Split_eq_splitLoop hsep]
  unfold Count
  simp only [he]
  exact length_splitLoop_countLoop sep _ s


theorem occurrences_nil (sep : Str) (hsep : sep ≠ []) : occurrences [] sep = 0 := by
  cases sep with
  | nil => exact absurd rfl hsep
  | cons a l => simp [occurrences, HasPrefix, List.isPrefixOf]

theorem occurrences_cons (c : Char) (t sep : Str) :
    occurrences (c :: t) sep = (if HasPrefix (c :: t) sep then 1 else 0) + occurrences t sep := by
  unfold occurrences
  rw [List.tails_cons, List.filter_cons]
  split <;> simp [Nat.add_comm]

theorem occurrences_of_Index_none {sep : Str} (hsep : sep ≠ []) : ∀ {s : Str},
    Index s sep = none → occurrences s sep = 0
  | [], _ => occurrences_nil sep hsep
  | c :: t, h => by
    unfold Index at h
    split at h
    · simp at h
    · rename_i hp
      have ht : Index t sep = none := by simpa using h
      rw [occurrences_cons, occurrences_of_Index_none hsep ht]
      simp [hp]

theorem occurrences_of_Index_some {sep : Str} : ∀ {s : Str} {m : Nat},
    Index s sep = some m → occurrences s sep = occurrences (s.drop m) sep
  | [], m, _ => by simp
  | c :: t, m, h => by
    unfold Index at h
    split at h
    · have hm : m = 0 := by simpa using h.symm
      subst hm
      rfl
    · rename_i hp
      cases hi : Index t sep with
      | none => simp [hi] at h
      | some k =>
        simp [hi] at h
        subst h
        rw [occurrences_cons, occurrences_of_Index_some hi]
        simp [hp]

theorem occurrences_after_match {s r : Str} (hs : s = delimiter ++ r) (h4 : ¬ dashes4 <:+: s) :
    occurrences s delimiter = occurrences r delimiter + 1 := by
  subst hs
  have hr : ∀ r' : Str, r ≠ '-' :: r' := by
    intro r' hr'
    apply h4
    subst hr'
    exact ⟨[], r', rfl⟩
  cases r with
  | nil => decide
  | cons a r' =>
    have ha : ¬ '-' = a := by
      intro h
      exact hr r' (by rw [h])
    simp only [delimiter, List.cons_append, List.nil_append]
    rw [occurrences_cons, occurrences_cons, occurrences_cons]
    simp [HasPrefix, List.isPrefixOf, ha, Nat.add_comm]

theorem countLoop_eq_occurrences : ∀ (fuel : Nat) (s : Str), s.length ≤ fuel →
    ¬ dashes4 <:+: s → countLoop delimiter fuel s = occurrences s delimiter
  | 0, s, h, _ => by
    have : s = [] := List.length_eq_zero.1 (by omega)
    subst this
    decide
  | fuel + 1, s, h, h4 => by
    unfold countLoop
    cases hi : Index s delimiter with
    | none =>
      simp only
      exact (occurrences_of_Index_none (by decide) hi).symm
    | some i =>
      simp only
      have hle := Index_some_le hi
      obtain ⟨r, hr⟩ := Index_some_prefix hi
      have hdrop : s.drop (i + delimiter.length) = r := by
        rw [← List.drop_drop, ← hr]
        simp [delimiter]
      have hsuf : s.drop i <:+ s := List.drop_suffix i s
      have h4' : ¬ dashes4 <:+: s.drop i := fun hc => h4 (hc.trans hsuf.isInfix)
      have h4r : ¬ dashes4 <:+: r := by
        intro hc
        apply h4'
        rw [← hr]
        exact hc.trans (List.suffix_append _ _).isInfix
      have hlen : r.length ≤ fuel := by
        rw [← hdrop, List.length_drop]
        simp only [delimiter, List.length_cons, List.length_nil] at hle ⊢
        omega
      rw [hdrop, countLoop_eq_occurrences fuel r hlen h4r, occurrences_of_Index_some hi,
        occurrences_after_match hr.symm h4']

theorem Count_eq_occurrences (s : Str) (h4 : ¬ dashes4 <:+: s) :
    Count s delimiter = occurrences s delimiter := by
  unfold Count
  simp only [delimiter, List.isEmpty_cons]
  exact countLoop_eq_occurrences _ s (Nat.le_refl _) h4

/-! ## Lemmas on trimming -/

theorem crlf_contains (c : Char) : crlf.contains c = true ↔ c = '\n' ∨ c = '\r' := by
  simp [crlf, or_comm]

theorem rdropWhile_append_rtakeWhile (p : Char → Bool) (l : Str) :
    l.rdropWhile p ++ l.rtakeWhile p = l := by
  unfold List.rdropWhile List.rtakeWhile
  rw [← List.reverse_append, List.takeWhile_append_dropWhile, List.reverse_reverse]

theorem rdropWhile_cons (p : Char → Bool) (x : Char) (l : Str) :
    (x :: l).rdropWhile p =
      if l.rdropWhile p = [] ∧ p x = true then [] else x :: l.rdropWhile p := by
  unfold List.rdropWhile
  rw [List.reverse_cons, List.dropWhile_append]
  by_cases h : List.dropWhile p l.reverse = []
  · by_cases hx : p x = true <;> simp [h, hx, List.dropWhile]
  · have h2 : (List.dropWhile p l.reverse).isEmpty = false := by
      cases hd : List.dropWhile p l.reverse with
      | nil => exact absurd hd h
      | cons _ _ => rfl
    simp [h, h2]

/-- Trimming on the right and then on the left gives the same as trimming on the left and
then on the right. -/
theorem dropWhile_rdropWhile_comm (p : Char → Bool) : ∀ l : Str,
    (l.rdropWhile p).dropWhile p = (l.dropWhile p).rdropWhile p
  | [] => by simp
  | x :: l => by
    have ih := dropWhile_rdropWhile_comm p l
    rw [rdropWhile_cons]
    by_cases hx : p x = true
    · rw [List.dropWhile_cons_of_pos hx, ← ih]
      by_cases hl : l.rdropWhile p = []
      · simp [hl, hx]
      · simp [hl, hx, List.dropWhile_cons_of_pos]
    · have hx' : p x = false := by simpa using hx
      rw [List.dropWhile_cons_of_neg hx, rdropWhile_cons]
      simp [hx', List.dropWhile_cons_of_neg]

theorem trim_head (f : Str) (c : Char)
    (h : (TrimLeft (TrimRight f crlf) crlf).head? = some c) : c ≠ '\n' ∧ c ≠ '\r' := by
  unfold TrimLeft at h
  have h1 := List.head?_dropWhile_not (fun c => crlf.contains c) (TrimRight f crlf)
  rw [h] at h1
  have h2 : ¬ (crlf.contains c = true) := by simpa using h1
  rw [crlf_contains] at h2
  exact ⟨fun e => h2 (Or.inl e), fun e => h2 (Or.inr e)⟩

theorem trim_getLast (f : Str) (c : Char)
    (h : (TrimLeft (TrimRight f crlf) crlf).getLast? = some c) : c ≠ '\n' ∧ c ≠ '\r' := by
  unfold TrimLeft TrimRight at h
  rw [dropWhile_rdropWhile_comm] at h
  have hne : (f.dropWhile (fun c => crlf.contains c)).rdropWhile (fun c => crlf.contains c) ≠ [] := by
    intro he
    rw [he] at h
    simp at h
  have h1 := List.rdropWhile_last_not (fun c => crlf.contains c)
    (f.dropWhile (fun c => crlf.contains c)) hne
  rw [List.getLast?_eq_getLast _ hne] at h
  have hc : _ = c := Option.some.inj h
  rw [hc] at h1
  have h2 : ¬ (crlf.contains c = true) := h1
  rw [crlf_contains] at h2
  exact ⟨fun e => h2 (Or.inl e), fun e => h2 (Or.inr e)⟩

theorem trim_strippedOf (f : Str) : StrippedOf (TrimLeft (TrimRight f crlf) crlf) f := by
  refine ⟨trim_head f, trim_getLast f, ?_⟩
  refine ⟨(TrimRight f crlf).takeWhile (fun c => crlf.contains c),
    f.rtakeWhile (fun c => crlf.contains c), ?_, ?_, ?_⟩
  · unfold TrimLeft
    rw [List.takeWhile_append_dropWhile]
    unfold TrimRight
    exact (rdropWhile_append_rtakeWhile _ f).symm
  · intro c hc
    exact (crlf_contains c).1 (List.mem_takeWhile_imp hc)
  · intro c hc
    exact (crlf_contains c).1 (List.mem_rtakeWhile_imp hc)

/-! ## `Load` -/

theorem Load_err_none_iff (w : World) (m : model) :
    (Load w m).err = none ↔
      m.fileName ≠ "" ∧
      (∃ info, (w.fs w.clock).Stat m.fileName = .ok info ∧ info.IsDir = false) ∧
      ∃ b, (w.fs (w.clock + 1)).ReadFile m.fileName = .ok b := by
  unfold Load osStat osReadFile
  by_cases hn : m.fileName = ""
  · simp [hn]
  · simp only [hn, if_false]
    cases hs : (w.fs w.clock).Stat m.fileName with
    | error e => simp
    | ok info =>
      cases hd : info.IsDir with
      | true => simp [hd]
      | false =>
        simp only [hd]
        cases hr : (w.fs (w.clock + 1)).ReadFile m.fileName with
        | error e => simp
        | ok b => simp [hn, hd]

theorem Load_of_read {w : World} {m : model} {D : Str} (hload : (Load w m).err = none)
    (hread : (w.fs (w.clock + 1)).ReadFile m.fileName = .ok D) :
    (Load w m).m = { m with slides := parseSlides D } := by
  obtain ⟨hn, ⟨info, hs, hd⟩, -⟩ := (Load_err_none_iff w m).1 hload
  unfold Load osStat osReadFile
  simp [hn, hs, hd, hread]

theorem intercalate_splitLoop (sep : Str) : ∀ (k : Nat) (s : Str),
    List.intercalate sep (splitLoop sep k s) = s
  | 0, s => by simp [splitLoop, List.intercalate]
  | k + 1, s => by
    unfold splitLoop
    cases hi : Index s sep with
    | none => simp [List.intercalate]
    | some m =>
      simp only
      have ih := intercalate_splitLoop sep k (s.drop (m + sep.length))
      obtain ⟨r, hr⟩ := Index_some_prefix hi
      have hdrop : s.drop (m + sep.length) = r := by
        rw [← List.drop_drop, ← hr]
        simp
      rw [hdrop] at ih ⊢
      cases hsl : splitLoop sep k r with
      | nil =>
        rw [hsl] at ih
        have hr0 : r = [] := by simpa [List.intercalate] using ih.symm
        subst hr0
        cases k <;> simp [splitLoop] at hsl
        split at hsl <;> simp at hsl
      | cons x xs =>
        rw [hsl] at ih
        have : List.intercalate sep (List.take m s :: x :: xs)
            = List.take m s ++ sep ++ List.intercalate sep (x :: xs) := by
          simp [List.intercalate, List.intersperse]
        rw [this, ih, List.append_assoc, hr, List.take_append_drop]

theorem intercalate_Split (s : Str) : List.intercalate delimiter (Split s delimiter) = s := by
  rw [Split_eq_splitLoop (by decide)]
  exact intercalate_splitLoop _ _ _

theorem length_parseSlides (D : Str) : (parseSlides D).length = Count D delimiter + 1 := by
  unfold parseSlides
  rw [List.length_map, length_Split (by decide)]

/-! ## Lemmas on `Load`, `Update` and the event loop -/

theorem Load_slides_length_pos (w : World) (m : model) (hload : (Load w m).err = none) :
    1 ≤ (Load w m).m.slides.length := by
  obtain ⟨-, -, b, hb⟩ := (Load_err_none_iff w m).1 hload
  rw [Load_of_read hload hb]
  show 1 ≤ (parseSlides b).length
  rw [length_parseSlides]
  omega

theorem Load_noName {w : World} {m : model} (hn : m.fileName = "") :
    Load w m = ⟨some "no file specified", m, { w with loads := w.loads + 1 }⟩ := by
  unfold Load
  simp [hn]

theorem Load_statErr {w : World} {m : model} {e : String} (hn : m.fileName ≠ "")
    (hs : (w.fs w.clock).Stat m.fileName = .error e) :
    Load w m = ⟨some e, m, { w with clock := w.clock + 1, loads := w.loads + 1 }⟩ := by
  unfold Load osStat
  simp [hn, hs]

theorem Load_isDir {w : World} {m : model} {info : FileInfo} (hn : m.fileName ≠ "")
    (hs : (w.fs w.clock).Stat m.fileName = .ok info) (hd : info.IsDir = true) :
    Load w m = ⟨some "can not read directories", m,
      { w with clock := w.clock + 1, loads := w.loads + 1 }⟩ := by
  unfold Load osStat
  simp [hn, hs, hd]

theorem Load_readErr {w : World} {m : model} {info : FileInfo} {e : String}
    (hn : m.fileName ≠ "") (hs : (w.fs w.clock).Stat m.fileName = .ok info)
    (hd : info.IsDir = false) (hr : (w.fs (w.clock + 1)).ReadFile m.fileName = .error e) :
    Load w m = ⟨some e, m, { w with clock := w.clock + 2, loads := w.loads + 1 }⟩ := by
  unfold Load osStat osReadFile
  simp [hn, hs, hd, hr]

theorem Load_ok {w : World} {m : model} {info : FileInfo} {b : Str}
    (hn : m.fileName ≠ "") (hs : (w.fs w.clock).Stat m.fileName = .ok info)
    (hd : info.IsDir = false) (hr : (w.fs (w.clock + 1)).ReadFile m.fileName = .ok b) :
    Load w m = ⟨none, { m with slides := parseSlides b },
      { w with clock := w.clock + 2, loads := w.loads + 1 }⟩ := by
  unfold Load osStat osReadFile
  simp [hn, hs, hd, hr]

theorem Load_fileInfo (w : World) (m : model) : (Load w m).w.fileInfo = w.fileInfo := by
  by_cases hn : m.fileName = ""
  · rw [Load_noName hn]
  · cases hs : (w.fs w.clock).Stat m.fileName with
    | error e => rw [Load_statErr hn hs]
    | ok info =>
      cases hd : info.IsDir with
      | true => rw [Load_isDir hn hs hd]
      | false =>
        cases hr : (w.fs (w.clock + 1)).ReadFile m.fileName with
        | error e => rw [Load_readErr hn hs hd hr]
        | ok b => rw [Load_ok hn hs hd hr]

theorem Load_err_some (w : World) (m : model) (e : String) (h : (Load w m).err = some e) :
    (Load w m).m = m := by
  by_cases hn : m.fileName = ""
  · rw [Load_noName hn]
  · cases hs : (w.fs w.clock).Stat m.fileName with
    | error e => rw [Load_statErr hn hs]
    | ok info =>
      cases hd : info.IsDir with
      | true => rw [Load_isDir hn hs hd]
      | false =>
        cases hr : (w.fs (w.clock + 1)).ReadFile m.fileName with
        | error e => rw [Load_readErr hn hs hd hr]
        | ok b =>
          rw [Load_ok hn hs hd hr] at h
          simp at h

theorem Load_frame (w : World) (m : model) :
    (Load w m).m.currentSlide = m.currentSlide ∧ (Load w m).m.fileName = m.fileName ∧
    (Load w m).m.author = m.author ∧ (Load w m).m.date = m.date ∧
    (Load w m).m.viewport = m.viewport := by
  cases h : (Load w m).err with
  | some e => rw [Load_err_some w m e h]; simp
  | none =>
    obtain ⟨-, -, b, hb⟩ := (Load_err_none_iff w m).1 h
    rw [Load_of_read h hb]
    simp

theorem Update_fileWatch_differs {w : World} {m : model} {newFileInfo old : FileInfo}
    (hstat : (w.fs w.clock).Stat m.fileName = .ok newFileInfo)
    (hbase : w.fileInfo = some old) (hmod : newFileInfo.ModTime ≠ old.ModTime) :
    Update w m .fileWatchMsg =
      match (Load (reloadWorld w newFileInfo) m).err with
      | some loadErr => .fatal loadErr (Load (reloadWorld w newFileInfo) m).m
          (Load (reloadWorld w newFileInfo) m).w
      | none =>
        .ok (if (Load (reloadWorld w newFileInfo) m).m.currentSlide
                ≥ ((Load (reloadWorld w newFileInfo) m).m.slides.length : Int)
              then { (Load (reloadWorld w newFileInfo) m).m with
                currentSlide := ((Load (reloadWorld w newFileInfo) m).m.slides.length : Int) - 1 }
              else (Load (reloadWorld w newFileInfo) m).m)
          .fileWatch (Load (reloadWorld w newFileInfo) m).w := by
  unfold Update osStat reloadWorld
  simp only [hstat, hbase]
  simp [hmod]

theorem Update_preserves {w w1 : World} {m m1 : model} {msg : Msg} {cmd : Cmd}
    (hinv : WellIndexed m) (hu : Update w m msg = .ok m1 cmd w1) : WellIndexed m1 := by
  unfold WellIndexed at hinv ⊢
  cases msg with
  | WindowSizeMsg width height =>
    simp only [Update, Outcome.ok.injEq] at hu
    obtain ⟨rfl, -, -⟩ := hu
    exact hinv
  | KeyMsg key =>
    simp only [Update] at hu
    split at hu
    · simp only [Outcome.ok.injEq] at hu
      obtain ⟨rfl, -, -⟩ := hu
      exact hinv
    · split at hu
      · simp only [Outcome.ok.injEq] at hu
        obtain ⟨rfl, -, -⟩ := hu
        split
        · simp only; omega
        · exact hinv
      · split at hu
        · simp only [Outcome.ok.injEq] at hu
          obtain ⟨rfl, -, -⟩ := hu
          split
          · simp only; omega
          · exact hinv
        · simp only [Outcome.ok.injEq] at hu
          obtain ⟨rfl, -, -⟩ := hu
          exact hinv
  | fileWatchMsg =>
    cases hs : (w.fs w.clock).Stat m.fileName with
    | error e =>
      simp only [Update, osStat, hs, Outcome.ok.injEq] at hu
      obtain ⟨rfl, -, -⟩ := hu
      exact hinv
    | ok info =>
      cases hb : w.fileInfo with
      | none => simp [Update, osStat, hs, hb] at hu
      | some old =>
        by_cases hmod : info.ModTime = old.ModTime
        · simp only [Update, osStat, hs, hb, hmod, ne_eq, not_true_eq_false, if_false,
            Outcome.ok.injEq] at hu
          obtain ⟨rfl, -, -⟩ := hu
          exact hinv
        · rw [Update_fileWatch_differs hs hb hmod] at hu
          cases hl : (Load (reloadWorld w info) m).err with
          | some e => simp [hl] at hu
          | none =>
            simp only [hl, Outcome.ok.injEq] at hu
            obtain ⟨rfl, -, -⟩ := hu
            have hlen := Load_slides_length_pos (reloadWorld w info) m hl
            have hcur := (Load_frame (reloadWorld w info) m).1
            split
            · simp only; omega
            · rename_i hge
              rw [hcur] at hge ⊢
              omega
  | other =>
    simp only [Update, Outcome.ok.injEq] at hu
    obtain ⟨rfl, -, -⟩ := hu
    exact hinv

theorem run_preserves : ∀ (msgs : List Msg) {w w1 : World} {m m1 : model} {cmd : Cmd},
    WellIndexed m → run w m msgs = .ok m1 cmd w1 → WellIndexed m1
  | [], w, w1, m, m1, cmd, hinv, hr => by
    simp only [run, Outcome.ok.injEq] at hr
    obtain ⟨rfl, -, -⟩ := hr
    exact hinv
  | msg :: rest, w, w1, m, m1, cmd, hinv, hr => by
    unfold run at hr
    cases hu : Update w m msg with
    | ok m2 c2 w2 =>
      simp only [hu] at hr
      exact run_preserves rest (Update_preserves hinv hu) hr
    | fatal e m2 w2 => simp [hu] at hr
    | panic m2 w2 => simp [hu] at hr

theorem newModel_wellIndexed {w w0 : World} {args : List String}
    {currentUser : Except String String} {today : String} {m0 : model}
    (h : newModel w args currentUser today = .ok (m0, w0)) :
    m0.currentSlide = 0 ∧ 1 ≤ m0.slides.length := by
  unfold newModel at h
  split at h
  · rename_i fileName _
    simp only at h
    split at h
    · simp at h
    · rename_i hl
      simp only [Except.ok.injEq, Prod.mk.injEq] at h
      obtain ⟨rfl, -⟩ := h
      exact ⟨(Load_frame _ _).1, Load_slides_length_pos _ _ hl⟩
  · simp at h

theorem currentSlideText_isSome {m : model} (h : WellIndexed m) :
    ∃ s, currentSlideText m = some s := by
  obtain ⟨h0, h1⟩ := h
  unfold currentSlideText
  have hlt : m.currentSlide.toNat < m.slides.length := by omega
  refine ⟨m.slides[m.currentSlide.toNat], ?_⟩
  simp [h0, List.getElem?_eq_getElem hlt]

/-! ## Lemmas on fragments -/

theorem absent_of_Index_none {sep : Str} : ∀ {s : Str}, Index s sep = none → ¬ sep <:+: s
  | [], h, hin => by
    have hs : sep = [] := List.eq_nil_of_infix_nil hin
    subst hs
    simp [Index] at h
  | c :: t, h, hin => by
    unfold Index at h
    split at h
    · simp at h
    · rename_i hp
      have ht : Index t sep = none := by simpa using h
      rcases List.infix_cons_iff.1 hin with hpre | hinf
      · exact hp ((hasPrefix_iff _ _).2 hpre)
      · exact absent_of_Index_none ht hinf

theorem Index_none_of_absent {sep s : Str} (h : ¬ sep <:+: s) : Index s sep = none := by
  cases hi : Index s sep with
  | none => rfl
  | some m =>
    exfalso
    apply h
    exact ( Index_some_prefix hi).isInfix.trans (List.drop_suffix m s).isInfix

theorem Index_some_not_infix_take {sep : Str} (hsep : sep ≠ []) : ∀ {s : Str} {m : Nat},
    Index s sep = some m → ¬ sep <:+: s.take m
  | [], m, _, hin => by
    rw [List.take_nil] at hin
    exact hsep (List.eq_nil_of_infix_nil hin)
  | c :: t, m, h, hin => by
    unfold Index at h
    split at h
    · have hm : m = 0 := by simpa using h.symm
      subst hm
      rw [List.take_zero] at hin
      exact hsep (List.eq_nil_of_infix_nil hin)
    · rename_i hp
      cases hi : Index t sep with
      | none => simp [hi] at h
      | some k =>
        simp [hi] at h
        subst h
        rw [List.take_succ_cons] at hin
        rcases List.infix_cons_iff.1 hin with hpre | hinf
        · apply hp
          rw [hasPrefix_iff]
          exact hpre.trans ((List.prefix_cons_inj c).2 (List.take_prefix k t))
        · exact Index_some_not_infix_take hsep hi hinf

theorem splitLoop_countLoop_absent {sep : Str} (hsep : sep ≠ []) : ∀ (fuel : Nat) (s : Str),
    s.length ≤ fuel → ∀ f ∈ splitLoop sep (countLoop sep fuel s) s, ¬ sep <:+: f
  | 0, s, h, f, hf => by
    have hs : s = [] := List.length_eq_zero.1 (by omega)
    subst hs
    simp [countLoop, splitLoop] at hf
    subst hf
    exact fun hin => hsep (List.eq_nil_of_infix_nil hin)
  | fuel + 1, s, h, f, hf => by
    unfold countLoop at hf
    cases hi : Index s sep with
    | none =>
      simp only [hi] at hf
      unfold splitLoop at hf
      simp at hf
      subst hf
      exact absent_of_Index_none hi
    | some i =>
      simp only [hi] at hf
      unfold splitLoop at hf
      simp only [hi, List.mem_cons] at hf
      rcases hf with rfl | hf
      · exact Index_some_not_infix_take hsep hi
      · have h1 := Index_some_le hi
        have h3 : 0 < sep.length := List.length_pos.2 hsep
        have hl : (s.drop (i + sep.length)).length ≤ fuel := by
          rw [List.length_drop]
          omega
        exact splitLoop_countLoop_absent hsep fuel _ hl f hf

theorem Split_fragment_absent (s : Str) : ∀ f ∈ Split s delimiter, ¬ delimiter <:+: f := by
  rw [Split_eq_splitLoop (by decide)]
  unfold Count
  simp only [delimiter, List.isEmpty_cons]
  exact splitLoop_countLoop_absent (by decide) _ s (Nat.le_refl _)

theorem trim_within (f : Str) : TrimLeft (TrimRight f crlf) crlf <:+: f := by
  unfold TrimLeft TrimRight
  exact (List.dropWhile_suffix _).isInfix.trans (List.rdropWhile_prefix _ f).isInfix

theorem Split_of_absent {s : Str} (h : ¬ delimiter <:+: s) : Split s delimiter = [s] := by
  have hi := Index_none_of_absent h
  rw [Split_eq_splitLoop (by decide)]
  cases hs : s with
  | nil => subst hs; rfl
  | cons c t =>
    rw [← hs]
    have hc : Count s delimiter = 0 := by
      unfold Count
      simp only [delimiter, List.isEmpty_cons]
      rw [hs, List.length_cons, ← hs]
      unfold countLoop
      simp only [delimiter] at hi
      simp [hi]
    rw [hc]
    rfl

/-! ## Lemmas on the page indicator -/

theorem digitChar_isDigit (d : Nat) (h : d < 10) :
    (Nat.digitChar d).isDigit = true ∧ (Nat.digitChar d).toNat - '0'.toNat = d ∧
    (Nat.digitChar d = '0' → d = 0) := by
  interval_cases d <;> decide

theorem decimalValue_append_singleton (ds : Str) (c : Char) :
    decimalValue (ds ++ [c]) = 10 * decimalValue ds + (c.toNat - '0'.toNat) := by
  unfold decimalValue
  rw [List.foldl_append]
  rfl

theorem fmtDigits_spec : ∀ (fuel u : Nat) (buf : Str), u ≤ fuel →
    ∃ ds : Str, fmtDigits fuel u buf = ds ++ buf ∧ ds ≠ [] ∧
      (∀ c ∈ ds, c.isDigit = true) ∧ (ds.head? = some '0' → ds = ['0']) ∧
      decimalValue ds = u
  | 0, u, buf, h => by
    have hu : u = 0 := by omega
    subst hu
    exact ⟨['0'], rfl, by simp, by decide, fun _ => rfl, rfl⟩
  | fuel + 1, u, buf, h => by
    unfold fmtDigits
    by_cases hu : u ≥ 10
    · simp only [hu, if_true]
      obtain ⟨ds, he, hne, hdig, hz, hv⟩ :=
        fmtDigits_spec fuel (u / 10) (Nat.digitChar (u - u / 10 * 10) :: buf) (by omega)
      have hd := digitChar_isDigit (u - u / 10 * 10) (by omega)
      refine ⟨ds ++ [Nat.digitChar (u - u / 10 * 10)], ?_, by simp, ?_, ?_, ?_⟩
      · rw [he]
        simp
      · intro c hc
        rcases List.mem_append.1 hc with hc | hc
        · exact hdig c hc
        · rw [List.mem_singleton.1 hc]
          exact hd.1
      · intro hh
        exfalso
        cases ds with
        | nil => exact hne rfl
        | cons a l =>
          have ha : a = '0' := by simpa using hh
          have := hz (by simp [ha])
          rw [this] at hv
          have h0 : decimalValue ['0'] = 0 := rfl
          omega
      · rw [decimalValue_append_singleton, hv, hd.2.1]
        omega
    · simp only [hu, if_false]
      have hd := digitChar_isDigit u (by omega)
      refine ⟨[Nat.digitChar u], rfl, by simp, ?_, ?_, ?_⟩
      · intro c hc
        rw [List.mem_singleton.1 hc]
        exact hd.1
      · intro hh
        have : Nat.digitChar u = '0' := by simpa using hh
        rw [this]
      · show 10 * 0 + ((Nat.digitChar u).toNat - '0'.toNat) = u
        rw [hd.2.1]
        omega

theorem fmtInteger_isDecimalOf (v : Int) : IsDecimalOf (fmtInteger v) v := by
  obtain ⟨ds, he, hne, hdig, hz, hv⟩ := fmtDigits_spec v.natAbs v.natAbs [] (Nat.le_refl _)
  rw [List.append_nil] at he
  refine ⟨ds, ?_, hne, hdig, hz, hv⟩
  unfold fmtInteger
  rw [he]
  split <;> rfl

theorem wrapInt_of_range {x : Int} (h0 : -(2 ^ 63) ≤ x) (h1 : x < 2 ^ 63) : wrapInt x = x := by
  unfold wrapInt
  rw [Int.emod_eq_of_lt (by omega) (by omega)]
  omega

/-! ## Lemmas on decoding -/

theorem decodeRune_size (c : Char) (s : Str) :
    1 ≤ (decodeRune (c :: s)).2 ∧ (decodeRune (c :: s)).2 ≤ (c :: s).length := by
  unfold decodeRune decodeTwo decodeThree decodeFour
  rcases s with _ | ⟨c1, _ | ⟨c2, _ | ⟨c3, s4⟩⟩⟩ <;> simp only [List.length_cons, List.length_nil]
    <;> split_ifs <;> simp

theorem decodeRune_ascii (c : Char) (s : Str) (h : c.toNat < 0x80) :
    decodeRune (c :: s) = (c, 1) := by
  simp only [decodeRune, h, if_true]

theorem decodeRune_two (c : Char) (s : Str) (h0 : ¬ c.toNat < 0x80)
    (h : 0xC2 ≤ c.toNat ∧ c.toNat ≤ 0xDF) : decodeRune (c :: s) = decodeTwo c s := by
  simp only [decodeRune, h0, h, if_true, if_false, and_self]

theorem decodeRune_three (c : Char) (s : Str) (h0 : ¬ c.toNat < 0x80)
    (h1 : ¬ (0xC2 ≤ c.toNat ∧ c.toNat ≤ 0xDF)) (h : 0xE0 ≤ c.toNat ∧ c.toNat ≤ 0xEF) :
    decodeRune (c :: s) = decodeThree c s := by
  simp only [decodeRune, h0, h1, h, if_true, if_false, and_self]

theorem decodeRune_four (c : Char) (s : Str) (h0 : ¬ c.toNat < 0x80)
    (h1 : ¬ (0xC2 ≤ c.toNat ∧ c.toNat ≤ 0xDF)) (h2 : ¬ (0xE0 ≤ c.toNat ∧ c.toNat ≤ 0xEF))
    (h : 0xF0 ≤ c.toNat ∧ c.toNat ≤ 0xF4) : decodeRune (c :: s) = decodeFour c s := by
  simp only [decodeRune, h0, h1, h2, h, if_true, if_false, and_self]

theorem decodeRune_other (c : Char) (s : Str) (h0 : ¬ c.toNat < 0x80)
    (h1 : ¬ (0xC2 ≤ c.toNat ∧ c.toNat ≤ 0xDF)) (h2 : ¬ (0xE0 ≤ c.toNat ∧ c.toNat ≤ 0xEF))
    (h3 : ¬ (0xF0 ≤ c.toNat ∧ c.toNat ≤ 0xF4)) :
    decodeRune (c :: s) = (RuneError, 1) := by
  simp only [decodeRune, h0, h1, h2, h3, if_false]

theorem decodeRune_append (c : Char) (s t : Str) (h : incompleteRune (c :: s) = false) :
    decodeRune (c :: s ++ t) = decodeRune (c :: s) := by
  rw [List.cons_append]
  by_cases h0 : c.toNat < 0x80
  · rw [decodeRune_ascii c _ h0, decodeRune_ascii c _ h0]
  by_cases h1 : 0xC2 ≤ c.toNat ∧ c.toNat ≤ 0xDF
  · rw [decodeRune_two c _ h0 h1, decodeRune_two c _ h0 h1]
    cases s with
    | nil =>
      exfalso
      simp only [incompleteRune, Bool.and_eq_false_iff, decide_eq_false_iff_not] at h
      omega
    | cons c1 s1 => rfl
  by_cases h2 : 0xE0 ≤ c.toNat ∧ c.toNat ≤ 0xEF
  · rw [decodeRune_three c _ h0 h1 h2, decodeRune_three c _ h0 h1 h2]
    rcases s with _ | ⟨c1, _ | ⟨c2, s2⟩⟩
    · exfalso
      simp only [incompleteRune, Bool.and_eq_false_iff, decide_eq_false_iff_not] at h
      omega
    · have hs : secondOk c.toNat c1.toNat = false := by
        simp only [incompleteRune, Bool.and_eq_false_iff, decide_eq_false_iff_not] at h
        rcases h with (h | h) | h
        · omega
        · omega
        · exact h
      cases t with
      | nil => rfl
      | cons d t1 => simp [decodeThree, hs]
    · rfl
  by_cases h3 : 0xF0 ≤ c.toNat ∧ c.toNat ≤ 0xF4
  · rw [decodeRune_four c _ h0 h1 h2 h3, decodeRune_four c _ h0 h1 h2 h3]
    rcases s with _ | ⟨c1, _ | ⟨c2, _ | ⟨c3, s3⟩⟩⟩
    · exfalso
      simp only [incompleteRune, Bool.and_eq_false_iff, decide_eq_false_iff_not] at h
      omega
    · have hs : secondOk c.toNat c1.toNat = false := by
        simp only [incompleteRune, Bool.and_eq_false_iff, decide_eq_false_iff_not] at h
        rcases h with (h | h) | h
        · omega
        · omega
        · exact h
      rcases t with _ | ⟨d1, _ | ⟨d2, t2⟩⟩
      · rfl
      · rfl
      · simp [decodeFour, hs]
    · have hs : (secondOk c.toNat c1.toNat && isCont c2.toNat) = false := by
        simp only [incompleteRune, Bool.and_eq_false_iff, decide_eq_false_iff_not] at h
        rcases h with ((h | h) | h) | h
        · omega
        · omega
        · simp [h]
        · simp [h]
      cases t with
      | nil => rfl
      | cons d t1 => simp [decodeFour, hs]
    · rfl
  · rw [decodeRune_other c _ h0 h1 h2 h3, decodeRune_other c _ h0 h1 h2 h3]

theorem decodeFrom_append (t : Str) : ∀ (s : Str) (k : Nat), k ≤ s.length →
    endsIncomplete k s = false → decodeFrom k (s ++ t) = decodeFrom k s ++ decodeFrom 0 t
  | [], k, hk, _ => by
    have h0 : k = 0 := by simpa using hk
    subst h0
    simp [decodeFrom]
  | c :: s, k + 1, hk, h => by
    rw [List.cons_append]
    simp only [decodeFrom]
    simp only [endsIncomplete] at h
    exact decodeFrom_append t s k (by simpa using hk) h
  | c :: s, 0, _, h => by
    simp only [endsIncomplete, Bool.or_eq_false_iff] at h
    have hs := decodeRune_size c s
    have hd := decodeRune_append c s t h.1
    rw [List.cons_append] at hd ⊢
    simp only [decodeFrom, hd, List.cons_append, List.cons.injEq, true_and]
    exact decodeFrom_append t s _ (by simp only [List.length_cons] at hs; omega) h.2

theorem decodeRunes_append {s : Str} (t : Str) (h : endsIncomplete 0 s = false) :
    decodeRunes (s ++ t) = decodeRunes s ++ decodeRunes t :=
  decodeFrom_append t s 0 (Nat.zero_le _) h

theorem decodeRunes_blanks (t : Str) : ∀ n : Nat,
    decodeRunes (List.replicate n ' ' ++ t) = List.replicate n ' ' ++ decodeRunes t
  | 0 => by simp
  | n + 1 => by
    have ih := decodeRunes_blanks t n
    unfold decodeRunes at ih ⊢
    rw [List.replicate_succ, List.cons_append]
    have hb : decodeRune (' ' :: (List.replicate n ' ' ++ t)) = (' ', 1) :=
      decodeRune_ascii ' ' _ (by decide)
    simp only [decodeFrom, hb, List.cons_append, ih]

/-! ## Lemmas on the two join functions -/

theorem splitLoop_of_Index_none {sep s : Str} (k : Nat) (h : Index s sep = none) :
    splitLoop sep k s = [s] := by
  cases k with
  | zero => rfl
  | succ k =>
    unfold splitLoop
    simp [h]

theorem Split_of_Index_none {sep s : Str} (hsep : sep ≠ []) (h : Index s sep = none) :
    Split s sep = [s] := by
  rw [Split_eq_splitLoop hsep]
  exact splitLoop_of_Index_none _ h

theorem Index_newline_of_not_mem {s : Str} (h : '\n' ∉ s) : Index s ['\n'] = none := by
  apply Index_none_of_absent
  intro hin
  exact h (hin.subset (List.mem_singleton.2 rfl))

theorem Split_single_line {s : Str} (h : '\n' ∉ s) : Split s ['\n'] = [s] :=
  Split_of_Index_none (by decide) (Index_newline_of_not_mem h)

theorem getLines_single_line (runeWidth : Char → Nat) {s : Str} (h : '\n' ∉ s) :
    getLines runeWidth s = ([s], PrintableRuneWidth runeWidth s) := by
  unfold getLines
  rw [Split_single_line h]
  simp only [List.foldl_cons, List.foldl_nil, Prod.mk.injEq, true_and]
  split
  · rfl
  · omega

theorem Width_single_line (runeWidth : Char → Nat) {s : Str} (h : '\n' ∉ s) :
    Width runeWidth s = PrintableRuneWidth runeWidth s := by
  unfold Width
  rw [Split_single_line h]
  simp only [List.foldl_cons, List.foldl_nil]
  split
  · rfl
  · omega

theorem printableLoop_cons (runeWidth : Char → Nat) (ansi : Bool) (c : Char) (t : Str) :
    printableLoop runeWidth ansi (c :: t)
      = if c = '\x1b' then printableLoop runeWidth true t
        else if ansi then printableLoop runeWidth (!IsTerminator c) t
        else runeWidth c + printableLoop runeWidth false t := by
  rw [printableLoop]

theorem ansiState_cons (ansi : Bool) (c : Char) (t : Str) :
    ansiState ansi (c :: t)
      = if c = '\x1b' then ansiState true t
        else if ansi then ansiState (!IsTerminator c) t
        else ansiState false t := by
  rw [ansiState]

theorem printableLoop_append (runeWidth : Char → Nat) : ∀ (s t : Str) (ansi : Bool),
    printableLoop runeWidth ansi (s ++ t)
      = printableLoop runeWidth ansi s + printableLoop runeWidth (ansiState ansi s) t
  | [], t, ansi => by simp [printableLoop, ansiState]
  | c :: s, t, ansi => by
    rw [List.cons_append, printableLoop_cons, printableLoop_cons runeWidth ansi c s,
      ansiState_cons]
    by_cases hc : c = '\x1b'
    · simp only [hc, if_true]
      exact printableLoop_append runeWidth s t true
    · simp only [hc, if_false]
      cases ansi with
      | true =>
        simp only [if_true]
        exact printableLoop_append runeWidth s t _
      | false =>
        simp only [Bool.false_eq_true, if_false]
        rw [printableLoop_append runeWidth s t false, Nat.add_assoc]

theorem ansiState_append : ∀ (s t : Str) (ansi : Bool),
    ansiState ansi (s ++ t) = ansiState (ansiState ansi s) t
  | [], t, ansi => rfl
  | c :: s, t, ansi => by
    rw [List.cons_append, ansiState_cons, ansiState_cons ansi c s]
    by_cases hc : c = '\x1b'
    · simp only [hc, if_true]
      exact ansiState_append s t true
    · simp only [hc, if_false]
      cases ansi with
      | true =>
        simp only [if_true]
        exact ansiState_append s t _
      | false =>
        simp only [Bool.false_eq_true, if_false]
        exact ansiState_append s t false

theorem printableLoop_blanks (runeWidth : Char → Nat) (h : runeWidth ' ' = 1) : ∀ n : Nat,
    printableLoop runeWidth false (List.replicate n ' ') = n
  | 0 => rfl
  | n + 1 => by
    rw [List.replicate_succ, printableLoop_cons]
    have hc : ¬ (' ' = '\x1b') := by decide
    simp only [hc, if_false, Bool.false_eq_true, h]
    rw [printableLoop_blanks runeWidth h n]
    omega

theorem ansiState_blanks : ∀ n : Nat, ansiState false (List.replicate n ' ') = false
  | 0 => rfl
  | n + 1 => by
    rw [List.replicate_succ, ansiState_cons]
    have hc : ¬ (' ' = '\x1b') := by decide
    simp only [hc, if_false, Bool.false_eq_true]
    exact ansiState_blanks n

theorem PlaceHorizontal_single_line (runeWidth : Char → Nat) {left : Str} (w : Int)
    (hl : '\n' ∉ left) (hw : (PrintableRuneWidth runeWidth left : Int) ≤ w) :
    PlaceHorizontal runeWidth w left
      = left ++ List.replicate (w - (PrintableRuneWidth runeWidth left : Int)).toNat ' ' := by
  unfold PlaceHorizontal
  rw [getLines_single_line runeWidth hl]
  simp only
  by_cases hg : w - (PrintableRuneWidth runeWidth left : Int) ≤ 0
  · simp only [hg, if_true]
    have : (w - (PrintableRuneWidth runeWidth left : Int)).toNat = 0 := by omega
    rw [this]
    simp
  · simp only [hg, if_false]
    simp [List.intercalate, render]

theorem JoinHorizontal_single_line (runeWidth : Char → Nat) {left right : Str} (width : Int)
    (hl : '\n' ∉ left)
    (hfit : (Width runeWidth left : Int) + (Width runeWidth right : Int) ≤ width) :
    JoinHorizontal runeWidth left right width
      = left ++ List.replicate
          (width - (Width runeWidth left : Int) - (Width runeWidth right : Int)).toNat ' '
        ++ right := by
  unfold JoinHorizontal
  simp only
  rw [Width_single_line runeWidth hl] at hfit ⊢
  rw [PlaceHorizontal_single_line runeWidth _ hl (by omega)]
  congr 3
  omega

theorem Width_JoinHorizontal (runeWidth : Char → Nat) {left right : Str} (width : Int)
    (hl : '\n' ∉ left) (hr : '\n' ∉ right) (hsp : runeWidth ' ' = 1)
    (hfit : (Width runeWidth left : Int) + (Width runeWidth right : Int) ≤ width)
    (hclosed : ansiState false (decodeRunes left) = false)
    (hwhole : endsIncomplete 0 left = false) :
    (Width runeWidth (JoinHorizontal runeWidth left right width) : Int) = width := by
  rw [JoinHorizontal_single_line runeWidth width hl hfit]
  have hn : '\n' ∉ left ++ List.replicate
      (width - (Width runeWidth left : Int) - (Width runeWidth right : Int)).toNat ' '
      ++ right := by
    simp only [List.mem_append, not_or]
    refine ⟨⟨hl, ?_⟩, hr⟩
    intro hm
    have := (List.mem_replicate.1 hm).2
    exact absurd this (by decide)
  rw [Width_single_line runeWidth hn]
  unfold PrintableRuneWidth
  rw [List.append_assoc, decodeRunes_append _ hwhole, decodeRunes_blanks,
    printableLoop_append, printableLoop_append, hclosed, ansiState_blanks,
    printableLoop_blanks runeWidth hsp]
  rw [Width_single_line runeWidth hl, Width_single_line runeWidth hr] at hfit ⊢
  unfold PrintableRuneWidth at hfit ⊢
  omega

theorem countLoop_single (c : Char) : ∀ (fuel : Nat) (s : Str), s.length ≤ fuel →
    countLoop [c] fuel s = s.count c
  | 0, s, h => by
    have hs : s = [] := List.length_eq_zero.1 (by omega)
    subst hs
    rfl
  | fuel + 1, s, h => by
    unfold countLoop
    cases hi : Index s [c] with
    | none =>
      simp only
      have hn : c ∉ s := by
        intro hm
        obtain ⟨a, b, hab⟩ := List.append_of_mem hm
        exact absent_of_Index_none hi ⟨a, b, by rw [hab]; simp⟩
      exact (List.count_eq_zero_of_not_mem hn).symm
    | some i =>
      simp only
      obtain ⟨r, hr⟩ := Index_some_prefix hi
      have hle := Index_some_le hi
      have hdrop : s.drop (i + [c].length) = r := by
        rw [← List.drop_drop, ← hr]
        simp
      have htake : c ∉ s.take i := by
        intro hm
        obtain ⟨a, b, hab⟩ := List.append_of_mem hm
        exact Index_some_not_infix_take (by simp) hi ⟨a, b, by rw [hab]; simp⟩
      have hs : s = s.take i ++ c :: r := by
        have := List.take_append_drop i s
        rw [← hr] at this
        exact this.symm
      have hlen : r.length ≤ fuel := by
        rw [← hdrop, List.length_drop]
        simp only [List.length_singleton] at hle ⊢
        omega
      rw [hdrop, countLoop_single c fuel r hlen]
      conv_rhs => rw [hs]
      rw [List.count_append, List.count_eq_zero_of_not_mem htake, List.count_cons_self]
      omega

theorem Height_eq_count (s : Str) : Height s = s.count '\n' + 1 := by
  unfold Height Count
  simp only [List.isEmpty_cons]
  rw [countLoop_single '\n' _ s (Nat.le_refl _)]
  simp

theorem count_intercalate_blank_lines (width : Nat) : ∀ n : Nat,
    (List.intercalate ['\n'] (List.replicate (n + 1) (List.replicate width ' '))).count '\n' = n
  | 0 => by
    have h : '\n' ∉ List.replicate width ' ' := by
      intro hm
      exact absurd (List.mem_replicate.1 hm).2 (by decide)
    simpa [List.intercalate] using List.count_eq_zero_of_not_mem h
  | n + 1 => by
    have h : '\n' ∉ List.replicate width ' ' := by
      intro hm
      exact absurd (List.mem_replicate.1 hm).2 (by decide)
    have ih := count_intercalate_blank_lines width n
    have hstep : List.intercalate ['\n']
          (List.replicate (n + 1 + 1) (List.replicate width ' '))
        = List.replicate width ' ' ++ ['\n']
          ++ List.intercalate ['\n'] (List.replicate (n + 1) (List.replicate width ' ')) := by
      rw [List.replicate_succ, List.replicate_succ]
      simp [List.intercalate, List.intersperse]
    rw [hstep, List.count_append, List.count_append, ih, List.count_eq_zero_of_not_mem h]
    simp
    omega

/-- Whenever the two blocks fit in `height` rows, the result of `JoinVertical` has one row less
than `height`: the last row of the padded top block and the first row of the bottom block are
one and the same row. -/
theorem Height_JoinVertical (runeWidth : Char → Nat) (top bottom : Str) (height : Int)
    (hfit : (Height top : Int) + (Height bottom : Int) ≤ height) :
    (Height (JoinVertical runeWidth top bottom height) : Int) = height - 1 := by
  unfold JoinVertical PlaceVertical
  simp only
  have ht := Height_eq_count top
  have hb := Height_eq_count bottom
  have hc : Count top ['\n'] = top.count '\n' := by
    have : Height top = Count top ['\n'] + 1 := rfl
    omega
  rw [hc]
  by_cases hg : height - (Height bottom : Int) - ((top.count '\n' : Int) + 1) ≤ 0
  · simp only [hg, if_true]
    rw [Height_eq_count, List.count_append]
    push_cast
    omega
  · simp only [hg, if_false]
    obtain ⟨n, hn⟩ : ∃ n : Nat,
        (height - (Height bottom : Int) - ((top.count '\n' : Int) + 1)).toNat = n + 1 :=
      ⟨(height - (Height bottom : Int) - ((top.count '\n' : Int) + 1)).toNat - 1, by omega⟩
    rw [hn, Height_eq_count]
    unfold render
    rw [List.count_append, List.count_append, List.count_append,
      count_intercalate_blank_lines]
    simp only [List.count_singleton_self, Int.toNat_ofNat]
    push_cast
    omega

/-! ## Lemmas on the watch baseline -/

theorem Update_baseline_present {w : World} {m : model} (msg : Msg)
    (hb : w.fileInfo ≠ none) :
    (∀ m1 w1, Update w m msg ≠ .panic m1 w1) ∧
    (∀ m1 cmd w1, Update w m msg = .ok m1 cmd w1 → w1.fileInfo ≠ none) := by
  cases msg with
  | WindowSizeMsg width height =>
    refine ⟨fun m1 w1 h => by simp [Update] at h, fun m1 cmd w1 h => ?_⟩
    simp only [Update, Outcome.ok.injEq] at h
    obtain ⟨-, -, rfl⟩ := h
    exact hb
  | KeyMsg key =>
    obtain ⟨m1, cmd, hk, -⟩ := (show ∃ m1 cmd, Update w m (.KeyMsg key) = .ok m1 cmd w ∧ True by
      simp only [Update]
      split
      · exact ⟨_, _, rfl, trivial⟩
      · split
        · exact ⟨_, _, rfl, trivial⟩
        · split
          · exact ⟨_, _, rfl, trivial⟩
          · exact ⟨_, _, rfl, trivial⟩)
    rw [hk]
    refine ⟨fun m2 w2 h => by simp at h, fun m2 c2 w2 h => ?_⟩
    simp only [Outcome.ok.injEq] at h
    obtain ⟨-, -, rfl⟩ := h
    exact hb
  | fileWatchMsg =>
    obtain ⟨old, hold⟩ := Option.ne_none_iff_exists'.1 hb
    cases hs : (w.fs w.clock).Stat m.fileName with
    | error e =>
      have hu : Update w m .fileWatchMsg = .ok m .fileWatch { w with clock := w.clock + 1 } := by
        simp [Update, osStat, hs]
      rw [hu]
      refine ⟨fun m2 w2 h => by simp at h, fun m2 c2 w2 h => ?_⟩
      simp only [Outcome.ok.injEq] at h
      obtain ⟨-, -, rfl⟩ := h
      exact hb
    | ok info =>
      by_cases hmod : info.ModTime = old.ModTime
      · have hu : Update w m .fileWatchMsg
            = .ok m .fileWatch { w with clock := w.clock + 1 } := by
          simp [Update, osStat, hs, hold, hmod]
        rw [hu]
        refine ⟨fun m2 w2 h => by simp at h, fun m2 c2 w2 h => ?_⟩
        simp only [Outcome.ok.injEq] at h
        obtain ⟨-, -, rfl⟩ := h
        exact hb
      · rw [Update_fileWatch_differs hs hold hmod]
        cases hl : (Load (reloadWorld w info) m).err with
        | some e => exact ⟨fun m2 w2 h => by simp at h, fun m2 c2 w2 h => by simp at h⟩
        | none =>
          refine ⟨fun m2 w2 h => by simp at h, fun m2 c2 w2 h => ?_⟩
          simp only [Outcome.ok.injEq] at h
          obtain ⟨-, -, rfl⟩ := h
          rw [Load_fileInfo]
          simp [reloadWorld]
  | other =>
    refine ⟨fun m1 w1 h => by simp [Update] at h, fun m1 cmd w1 h => ?_⟩
    simp only [Update, Outcome.ok.injEq] at h
    obtain ⟨-, -, rfl⟩ := h
    exact hb

/-- Once a baseline is stored, no sequence of messages ends in the nil-baseline panic. -/
theorem run_baseline_present : ∀ (msgs : List Msg) {w : World} {m : model},
    w.fileInfo ≠ none → ∀ m1 w1, run w m msgs ≠ .panic m1 w1
  | [], w, m, _, m1, w1 => by simp [run]
  | msg :: rest, w, m, hb, m1, w1 => by
    unfold run
    cases hu : Update w m msg with
    | ok m2 c2 w2 =>
      simp only
      exact run_baseline_present rest ((Update_baseline_present msg hb).2 m2 c2 w2 hu) m1 w1
    | fatal e m2 w2 => simp
    | panic m2 w2 => exact absurd hu ((Update_baseline_present msg hb).1 m2 w2)

/-! ## The claims -/

/-- C1, as stated, fails: the file `"----"` loads successfully and contains two occurrences of
`"---"` as a plain substring (at offsets 0 and 1), yet its deck is `["", "-"]`, two slides
and not three. -/
theorem load_slide_count_overlapping_counterexample :
    (Load (staticWorld (fileFS t0 dashes4)) (blankModel "deck.md")).err = none ∧
    ((staticWorld (fileFS t0 dashes4)).fs 1).ReadFile "deck.md" = .ok dashes4 ∧
    occurrences dashes4 delimiter = 2 ∧
    (Load (staticWorld (fileFS t0 dashes4)) (blankModel "deck.md")).m.slides = [[], ['-']] ∧
    (Load (staticWorld (fileFS t0 dashes4)) (blankModel "deck.md")).m.slides.length
      ≠ occurrences dashes4 delimiter + 1 := by
  refine ⟨by decide, rfl, by decide, by decide, by decide⟩

/-- C1, amended: a successful `Load` of the document text `D` yields exactly `N + 1` slides,
where `N` is the number of non-overlapping occurrences of `"---"` found scanning `D` from left
to right (Go `strings.Count`); `N` is the number of occurrences of `"---"` as a plain substring
whenever `D` contains no run of four or more dashes. -/
theorem load_slide_count (w : World) (m : model) (D : Str)
    (hload : (Load w m).err = none)
    (hread : (w.fs (w.clock + 1)).ReadFile m.fileName = .ok D) :
    (Load w m).m.slides.length = Count D delimiter + 1 ∧
    (¬ dashes4 <:+: D → Count D delimiter = occurrences D delimiter) := by
  rw [Load_of_read hload hread]
  exact ⟨length_parseSlides D, Count_eq_occurrences D⟩

/-- Witness of C1, amended: the document `"a---b---c"`. -/
theorem load_slide_count_witness :
    (Load (staticWorld (fileFS t0 "a---b---c".toList)) (blankModel "deck.md")).err = none ∧
    ((staticWorld (fileFS t0 "a---b---c".toList)).fs 1).ReadFile "deck.md"
      = .ok "a---b---c".toList ∧
    ¬ dashes4 <:+: "a---b---c".toList ∧
    (Load (staticWorld (fileFS t0 "a---b---c".toList)) (blankModel "deck.md")).m.slides.length
      = Count "a---b---c".toList delimiter + 1 ∧
    Count "a---b---c".toList delimiter = occurrences "a---b---c".toList delimiter :=
  ⟨by decide, rfl, by decide,
    (load_slide_count (staticWorld (fileFS t0 "a---b---c".toList)) (blankModel "deck.md")
      "a---b---c".toList (by decide) rfl).1,
    (load_slide_count (staticWorld (fileFS t0 "a---b---c".toList)) (blankModel "deck.md")
      "a---b---c".toList (by decide) rfl).2 (by decide)⟩

/-- C2: after a successful `Load` of the document text `D`, the slides correspond one to one,
in order, to the raw fragments `Split D "---"` (which, joined by the delimiter, give back `D`);
every slide neither begins nor ends with `'\n'` or `'\r'`, and its fragment is the slide between
a leading and a trailing run of `'\n'`/`'\r'` units, so that nothing else is removed. -/
theorem load_slides_stripped (w : World) (m : model) (D : Str)
    (hload : (Load w m).err = none)
    (hread : (w.fs (w.clock + 1)).ReadFile m.fileName = .ok D) :
    List.Forall₂ StrippedOf (Load w m).m.slides (Split D delimiter) ∧
    List.intercalate delimiter (Split D delimiter) = D := by
  rw [Load_of_read hload hread]
  refine ⟨?_, intercalate_Split D⟩
  show List.Forall₂ StrippedOf (parseSlides D) (Split D delimiter)
  unfold parseSlides
  rw [List.forall₂_map_left_iff, List.forall₂_same]
  intro f _
  exact trim_strippedOf f

/-- Witness of C2: the document `"\n\r\n one\n\n---\r\n\ttwo \r\n"`. -/
theorem load_slides_stripped_witness :
    (Load (staticWorld (fileFS t0 "\n\r\n one\n\n---\r\n\ttwo \r\n".toList))
      (blankModel "deck.md")).err = none ∧
    ((staticWorld (fileFS t0 "\n\r\n one\n\n---\r\n\ttwo \r\n".toList)).fs 1).ReadFile "deck.md"
      = .ok "\n\r\n one\n\n---\r\n\ttwo \r\n".toList ∧
    (Load (staticWorld (fileFS t0 "\n\r\n one\n\n---\r\n\ttwo \r\n".toList))
      (blankModel "deck.md")).m.slides = [" one".toList, "\ttwo ".toList] ∧
    List.Forall₂ StrippedOf
      (Load (staticWorld (fileFS t0 "\n\r\n one\n\n---\r\n\ttwo \r\n".toList))
        (blankModel "deck.md")).m.slides
      (Split "\n\r\n one\n\n---\r\n\ttwo \r\n".toList delimiter) :=
  ⟨by decide, rfl, by decide,
    (load_slides_stripped (staticWorld (fileFS t0 "\n\r\n one\n\n---\r\n\ttwo \r\n".toList))
      (blankModel "deck.md") "\n\r\n one\n\n---\r\n\ttwo \r\n".toList (by decide) rfl).1⟩

/-- C3: whatever the file content, whenever `Load` returns no error the deck has at least one
slide. -/
theorem load_deck_nonempty (w : World) (m : model) (hload : (Load w m).err = none) :
    1 ≤ (Load w m).m.slides.length := by
  obtain ⟨-, -, b, hb⟩ := (Load_err_none_iff w m).1 hload
  rw [Load_of_read hload hb]
  show 1 ≤ (parseSlides b).length
  rw [length_parseSlides]
  omega

/-- Witness of C3: the empty file, whose deck is the single empty slide. -/
theorem load_deck_nonempty_witness :
    (Load (staticWorld (fileFS t0 [])) (blankModel "deck.md")).err = none ∧
    (Load (staticWorld (fileFS t0 [])) (blankModel "deck.md")).m.slides = [[]] ∧
    1 ≤ (Load (staticWorld (fileFS t0 [])) (blankModel "deck.md")).m.slides.length :=
  ⟨by decide, by decide,
    load_deck_nonempty (staticWorld (fileFS t0 [])) (blankModel "deck.md") (by decide)⟩

/-- C4: from the state built by a successful `newModel` followed by `Init`, after every finite
sequence of messages handled by `Update` (keys, resizes, timer ticks with arbitrary file
changes, other messages) the state satisfies `0 <= currentSlide < len(slides)`, and the
indexing `m.slides[m.currentSlide]` of `View` yields a slide. -/
theorem index_in_bounds (w w0 w1 : World) (args : List String)
    (currentUser : Except String String) (today : String) (m0 m1 : model)
    (msgs : List Msg) (cmd : Cmd)
    (hstart : newModel w args currentUser today = .ok (m0, w0))
    (hrun : run (Init w0 m0).2 m0 msgs = .ok m1 cmd w1) :
    0 ≤ m1.currentSlide ∧ m1.currentSlide < (m1.slides.length : Int) ∧
    ∃ s, currentSlideText m1 = some s := by
  obtain ⟨hc, hl⟩ := newModel_wellIndexed hstart
  have h0 : WellIndexed m0 := by
    unfold WellIndexed
    omega
  have h1 := run_preserves msgs h0 hrun
  exact ⟨h1.1, h1.2, currentSlideText_isSome h1⟩

/-- Witness of C4: a three-slide deck; two `right` keys move to the last slide, the file then
shrinks to one slide and the next tick clamps the index to `0`; `left`, a resize and an
unknown key follow. -/
theorem index_in_bounds_witness :
    newModel shrinkingWorld ["slides", "deck.md"] (.ok "me") "04-11-2026"
      = .ok ({ blankModel "deck.md" with slides := ["a".toList, "b".toList, "c".toList] },
          { shrinkingWorld with clock := 2, loads := 1 }) ∧
    run (Init { shrinkingWorld with clock := 2, loads := 1 }
          { blankModel "deck.md" with slides := ["a".toList, "b".toList, "c".toList] }).2
        { blankModel "deck.md" with slides := ["a".toList, "b".toList, "c".toList] }
        [.KeyMsg "right", .KeyMsg "right", .fileWatchMsg, .KeyMsg "left",
          .WindowSizeMsg 80 24, .KeyMsg "x"]
      = .ok { blankModel "deck.md" with slides := ["a".toList], viewport := ⟨80, 24⟩ } .nil
          { shrinkingWorld with clock := 6, loads := 2, fileInfo := some ⟨t1, false⟩ } ∧
    (0 ≤ (0 : Int) ∧ (0 : Int) < ((["a".toList] : List Str).length : Int) ∧
      ∃ s, currentSlideText
        { blankModel "deck.md" with slides := ["a".toList], viewport := ⟨80, 24⟩ } = some s) :=
  ⟨rfl, rfl,
    index_in_bounds shrinkingWorld { shrinkingWorld with clock := 2, loads := 1 }
      { shrinkingWorld with clock := 6, loads := 2, fileInfo := some ⟨t1, false⟩ }
      ["slides", "deck.md"] (.ok "me") "04-11-2026"
      { blankModel "deck.md" with slides := ["a".toList, "b".toList, "c".toList] }
      { blankModel "deck.md" with slides := ["a".toList], viewport := ⟨80, 24⟩ }
      [.KeyMsg "right", .KeyMsg "right", .fileWatchMsg, .KeyMsg "left",
        .WindowSizeMsg 80 24, .KeyMsg "x"] .nil rfl rfl⟩

/-- C5: navigation is saturating.  In a state with `0 <= currentSlide < len(slides)` (so that
the deck has at least one slide), the keys
`"right"` and `" "` set the index to `min(i+1, L-1)` and the key `"left"` sets it to
`max(i-1, 0)`; the deck, the other fields and the world are unchanged and no command is
issued; at `i = L-1` advancing, and at `i = 0` retreating, return the model unchanged. -/
theorem navigation_saturating (w : World) (m : model)
    (h0 : 0 ≤ m.currentSlide) (h1 : m.currentSlide < (m.slides.length : Int)) :
    Update w m (.KeyMsg "right")
      = .ok { m with currentSlide := min (m.currentSlide + 1) ((m.slides.length : Int) - 1) }
          .nil w ∧
    Update w m (.KeyMsg " ")
      = .ok { m with currentSlide := min (m.currentSlide + 1) ((m.slides.length : Int) - 1) }
          .nil w ∧
    Update w m (.KeyMsg "left")
      = .ok { m with currentSlide := max (m.currentSlide - 1) 0 } .nil w ∧
    (m.currentSlide = (m.slides.length : Int) - 1 →
      Update w m (.KeyMsg "right") = .ok m .nil w ∧ Update w m (.KeyMsg " ") = .ok m .nil w) ∧
    (m.currentSlide = 0 → Update w m (.KeyMsg "left") = .ok m .nil w) := by
  have hr : ∀ key : String, key = "right" ∨ key = " " → Update w m (.KeyMsg key)
      = .ok (if m.currentSlide < (m.slides.length : Int) - 1
            then { m with currentSlide := m.currentSlide + 1 } else m) .nil w := by
    intro key hk
    rcases hk with rfl | rfl <;> simp [Update]
  have hl : Update w m (.KeyMsg "left")
      = .ok (if m.currentSlide > 0 then { m with currentSlide := m.currentSlide - 1 } else m)
          .nil w := by
    simp [Update]
  have hadv : (if m.currentSlide < (m.slides.length : Int) - 1
        then { m with currentSlide := m.currentSlide + 1 } else m)
      = { m with currentSlide := min (m.currentSlide + 1) ((m.slides.length : Int) - 1) } := by
    split
    · rw [min_eq_left (by omega)]
    · have : min (m.currentSlide + 1) ((m.slides.length : Int) - 1) = m.currentSlide := by
        rw [min_eq_right (by omega)]
        omega
      rw [this]
  have hret : (if m.currentSlide > 0 then { m with currentSlide := m.currentSlide - 1 } else m)
      = { m with currentSlide := max (m.currentSlide - 1) 0 } := by
    split
    · rw [max_eq_left (by omega)]
    · have : max (m.currentSlide - 1) 0 = m.currentSlide := by
        rw [max_eq_right (by omega)]
        omega
      rw [this]
  refine ⟨?_, ?_, ?_, ?_, ?_⟩
  · rw [hr "right" (Or.inl rfl), hadv]
  · rw [hr " " (Or.inr rfl), hadv]
  · rw [hl, hret]
  · intro he
    rw [hr "right" (Or.inl rfl), hr " " (Or.inr rfl)]
    have : ¬ m.currentSlide < (m.slides.length : Int) - 1 := by omega
    simp [this]
  · intro he
    rw [hl]
    have : ¬ m.currentSlide > 0 := by omega
    simp [this]

/-- Witness of C5: a two-slide deck with the cursor on the last slide. -/
theorem navigation_saturating_witness :
    (0 : Int) ≤ 1 ∧ (1 : Int) < ((["a".toList, "b".toList] : List Str).length : Int) ∧
    Update (staticWorld missingFS)
        { blankModel "deck.md" with slides := ["a".toList, "b".toList], currentSlide := 1 }
        (.KeyMsg "right")
      = .ok { blankModel "deck.md" with slides := ["a".toList, "b".toList], currentSlide := 1 }
          .nil (staticWorld missingFS) ∧
    Update (staticWorld missingFS)
        { blankModel "deck.md" with slides := ["a".toList, "b".toList], currentSlide := 1 }
        (.KeyMsg "left")
      = .ok { blankModel "deck.md" with slides := ["a".toList, "b".toList], currentSlide := 0 }
          .nil (staticWorld missingFS) :=
  ⟨by decide, by decide,
    ((navigation_saturating (staticWorld missingFS)
      { blankModel "deck.md" with slides := ["a".toList, "b".toList], currentSlide := 1 }
      (by decide) (by decide)).2.2.2.1 rfl).1,
    (navigation_saturating (staticWorld missingFS)
      { blankModel "deck.md" with slides := ["a".toList, "b".toList], currentSlide := 1 }
      (by decide) (by decide)).2.2.1⟩

/-- C6: the reload clamp.  On a timer tick whose stat succeeds with a modification time that
differs from the baseline and whose reload succeeds reading the content `D`, `Update` returns
the model with the deck `parseSlides D` (what `Load` computes from `D`) and the index
`min(i, L2-1)` where `L2` is the length of that deck: `L2-1` if `i >= L2`, and `i` itself if
`i < L2`; the next tick is scheduled. -/
theorem reload_clamp (w : World) (m : model) (newFileInfo old info : FileInfo) (D : Str)
    (hstat : (w.fs w.clock).Stat m.fileName = .ok newFileInfo)
    (hbase : w.fileInfo = some old)
    (hmod : newFileInfo.ModTime ≠ old.ModTime)
    (hname : m.fileName ≠ "")
    (hstat2 : (w.fs (w.clock + 1)).Stat m.fileName = .ok info)
    (hdir : info.IsDir = false)
    (hread : (w.fs (w.clock + 2)).ReadFile m.fileName = .ok D) :
    (Load (reloadWorld w newFileInfo) m).err = none ∧
    (Load (reloadWorld w newFileInfo) m).m.slides = parseSlides D ∧
    Update w m .fileWatchMsg
      = .ok { m with slides := parseSlides D,
                     currentSlide := min m.currentSlide (((parseSlides D).length : Int) - 1) }
          .fileWatch
          { w with clock := w.clock + 3, fileInfo := some newFileInfo, loads := w.loads + 1 } ∧
    (((parseSlides D).length : Int) ≤ m.currentSlide →
      min m.currentSlide (((parseSlides D).length : Int) - 1)
        = ((parseSlides D).length : Int) - 1) ∧
    (m.currentSlide < ((parseSlides D).length : Int) →
      min m.currentSlide (((parseSlides D).length : Int) - 1) = m.currentSlide) := by
  have hL : Load (reloadWorld w newFileInfo) m
      = ⟨none, { m with slides := parseSlides D },
          { w with clock := w.clock + 3, fileInfo := some newFileInfo,
                   loads := w.loads + 1 }⟩ := by
    rw [Load_ok (w := reloadWorld w newFileInfo) hname hstat2 hdir hread]
    simp [reloadWorld]
  refine ⟨by rw [hL], by rw [hL], ?_, ?_, ?_⟩
  · rw [Update_fileWatch_differs hstat hbase hmod, hL]
    simp only
    congr 1
    split
    · rw [min_eq_right (by omega)]
    · rw [min_eq_left (by omega)]
  · intro h
    rw [min_eq_right (by omega)]
  · intro h
    rw [min_eq_left (by omega)]

/-- Witness of C6: the cursor is on the third slide when the file shrinks to one slide. -/
theorem reload_clamp_witness :
    ((tickWorld (fileFS t1 "a".toList)).fs 0).Stat "deck.md" = .ok ⟨t1, false⟩ ∧
    (tickWorld (fileFS t1 "a".toList)).fileInfo = some ⟨t0, false⟩ ∧
    t1 ≠ t0 ∧
    ((tickWorld (fileFS t1 "a".toList)).fs 2).ReadFile "deck.md" = .ok "a".toList ∧
    Update (tickWorld (fileFS t1 "a".toList))
        { blankModel "deck.md" with
          slides := ["a".toList, "b".toList, "c".toList], currentSlide := 2 }
        .fileWatchMsg
      = .ok { blankModel "deck.md" with slides := ["a".toList], currentSlide := 0 } .fileWatch
          { tickWorld (fileFS t1 "a".toList) with
            clock := 3, fileInfo := some ⟨t1, false⟩, loads := 1 } :=
  ⟨rfl, rfl, by decide, rfl,
    (reload_clamp (tickWorld (fileFS t1 "a".toList))
      { blankModel "deck.md" with
        slides := ["a".toList, "b".toList, "c".toList], currentSlide := 2 }
      ⟨t1, false⟩ ⟨t0, false⟩ ⟨t1, false⟩ "a".toList rfl rfl (by decide) (by decide) rfl rfl
      rfl).2.2.1⟩

/-- C7: on a timer tick whose stat fails, or whose stat succeeds with the modification time of
the stored baseline, `Update` returns the model unchanged and schedules the next tick; the
world differs only in the one system call made: the baseline is unchanged and `Load` has not
been invoked; the outcome is neither `log.Fatal` nor a panic. -/
theorem tick_without_change (w : World) (m : model) :
    (∀ e, (w.fs w.clock).Stat m.fileName = .error e →
      Update w m .fileWatchMsg = .ok m .fileWatch { w with clock := w.clock + 1 }) ∧
    (∀ info old, (w.fs w.clock).Stat m.fileName = .ok info → w.fileInfo = some old →
      info.ModTime = old.ModTime →
      Update w m .fileWatchMsg = .ok m .fileWatch { w with clock := w.clock + 1 }) ∧
    ({ w with clock := w.clock + 1 } : World).fileInfo = w.fileInfo ∧
    ({ w with clock := w.clock + 1 } : World).loads = w.loads := by
  refine ⟨?_, ?_, rfl, rfl⟩
  · intro e hs
    simp [Update, osStat, hs]
  · intro info old hs hb hmod
    simp [Update, osStat, hs, hb, hmod]

/-- Witness of C7: a tick on a missing file, and a tick on a file whose modification time is
that of the baseline although its content differs from the deck. -/
theorem tick_without_change_witness :
    Update (tickWorld missingFS) (blankModel "deck.md") .fileWatchMsg
      = .ok (blankModel "deck.md") .fileWatch { tickWorld missingFS with clock := 1 } ∧
    Update (tickWorld (fileFS t0 "a---b".toList)) (blankModel "deck.md") .fileWatchMsg
      = .ok (blankModel "deck.md") .fileWatch
          { tickWorld (fileFS t0 "a---b".toList) with clock := 1 } :=
  ⟨(tick_without_change (tickWorld missingFS) (blankModel "deck.md")).1
      "no such file or directory" rfl,
    (tick_without_change (tickWorld (fileFS t0 "a---b".toList)) (blankModel "deck.md")).2.1
      ⟨t0, false⟩ ⟨t0, false⟩ rfl rfl rfl⟩

/-- C8, as stated, fails: the baseline is `t0`, the watched path has become a directory with
modification time `t1`; the tick's reload fails (`log.Fatal`) and at that point the stored
baseline is already the newly observed file info, not the one before the tick. -/
theorem baseline_kept_on_failed_reload_counterexample :
    (tickWorld (dirFS t1)).fileInfo = some ⟨t0, false⟩ ∧
    Update (tickWorld (dirFS t1)) (blankModel "deck.md") .fileWatchMsg
      = .fatal "can not read directories" (blankModel "deck.md")
          { tickWorld (dirFS t1) with
            clock := 2, fileInfo := some ⟨t1, true⟩, loads := 1 } ∧
    ({ tickWorld (dirFS t1) with
        clock := 2, fileInfo := some ⟨t1, true⟩, loads := 1 } : World).fileInfo
      ≠ (tickWorld (dirFS t1)).fileInfo :=
  ⟨rfl, rfl, by decide⟩

/-- C8, amended: on a timer tick whose stat succeeds with a modification time that differs from
the baseline, the stored baseline is set to the newly observed file info before `Load` is
invoked.  When the reload succeeds, `Update` returns with the baseline equal to the newly
observed file info; when the reload fails, the process ends in `log.Fatal` with the model
untouched and the baseline already equal to the newly observed file info. -/
theorem baseline_set_before_reload (w : World) (m : model) (newFileInfo old : FileInfo)
    (hstat : (w.fs w.clock).Stat m.fileName = .ok newFileInfo)
    (hbase : w.fileInfo = some old)
    (hmod : newFileInfo.ModTime ≠ old.ModTime) :
    (reloadWorld w newFileInfo).fileInfo = some newFileInfo ∧
    ((Load (reloadWorld w newFileInfo) m).err = none →
      ∃ m1 w1, Update w m .fileWatchMsg = .ok m1 .fileWatch w1 ∧
        w1.fileInfo = some newFileInfo) ∧
    (∀ e, (Load (reloadWorld w newFileInfo) m).err = some e →
      ∃ w1, Update w m .fileWatchMsg = .fatal e m w1 ∧ w1.fileInfo = some newFileInfo) := by
  refine ⟨rfl, ?_, ?_⟩
  · intro hl
    rw [Update_fileWatch_differs hstat hbase hmod]
    simp only [hl]
    exact ⟨_, _, rfl, by rw [Load_fileInfo]; rfl⟩
  · intro e hl
    rw [Update_fileWatch_differs hstat hbase hmod]
    simp only [hl]
    rw [Load_err_some _ _ e hl]
    exact ⟨_, rfl, by rw [Load_fileInfo]; rfl⟩

/-- Witness of C8, amended: a successful reload of a file with a new modification time. -/
theorem baseline_set_before_reload_witness :
    ((tickWorld (fileFS t1 "a".toList)).fs 0).Stat "deck.md" = .ok ⟨t1, false⟩ ∧
    (tickWorld (fileFS t1 "a".toList)).fileInfo = some ⟨t0, false⟩ ∧
    t1 ≠ t0 ∧
    (Load (reloadWorld (tickWorld (fileFS t1 "a".toList)) ⟨t1, false⟩)
      (blankModel "deck.md")).err = none ∧
    ∃ m1 w1, Update (tickWorld (fileFS t1 "a".toList)) (blankModel "deck.md") .fileWatchMsg
        = .ok m1 .fileWatch w1 ∧ w1.fileInfo = some ⟨t1, false⟩ :=
  ⟨rfl, rfl, by decide, by decide,
    (baseline_set_before_reload (tickWorld (fileFS t1 "a".toList)) (blankModel "deck.md")
      ⟨t1, false⟩ ⟨t0, false⟩ rfl rfl (by decide)).2.1 (by decide)⟩

/-- C9: `Load` returns an error if and only if the file name is empty, or the stat of the path
fails, or the path is a directory, or reading the file fails.  In particular `Load` fails on
every directory, and on every readable regular file it succeeds, whatever the content, with
the deck parsed from that content. -/
theorem load_error_iff (w : World) (m : model) :
    ((Load w m).err ≠ none ↔
      m.fileName = "" ∨
      (∃ e, (w.fs w.clock).Stat m.fileName = .error e) ∨
      (∃ info, (w.fs w.clock).Stat m.fileName = .ok info ∧ info.IsDir = true) ∨
      (∃ e, (w.fs (w.clock + 1)).ReadFile m.fileName = .error e)) ∧
    (∀ info, (w.fs w.clock).Stat m.fileName = .ok info → info.IsDir = true →
      (Load w m).err ≠ none) ∧
    (∀ info b, m.fileName ≠ "" → (w.fs w.clock).Stat m.fileName = .ok info →
      info.IsDir = false → (w.fs (w.clock + 1)).ReadFile m.fileName = .ok b →
      (Load w m).err = none ∧ (Load w m).m.slides = parseSlides b) := by
  have hiff : (Load w m).err ≠ none ↔
      m.fileName = "" ∨
      (∃ e, (w.fs w.clock).Stat m.fileName = .error e) ∨
      (∃ info, (w.fs w.clock).Stat m.fileName = .ok info ∧ info.IsDir = true) ∨
      (∃ e, (w.fs (w.clock + 1)).ReadFile m.fileName = .error e) := by
    by_cases hn : m.fileName = ""
    · rw [Load_noName hn]
      simp [hn]
    · cases hs : (w.fs w.clock).Stat m.fileName with
      | error e =>
        rw [Load_statErr hn hs]
        simp
      | ok info =>
        cases hd : info.IsDir with
        | true =>
          rw [Load_isDir hn hs hd]
          simp [hd]
        | false =>
          cases hr : (w.fs (w.clock + 1)).ReadFile m.fileName with
          | error e =>
            rw [Load_readErr hn hs hd hr]
            simp
          | ok b =>
            rw [Load_ok hn hs hd hr]
            simp [hn, hd]
  refine ⟨hiff, ?_, ?_⟩
  · intro info hs hd
    exact hiff.2 (Or.inr (Or.inr (Or.inl ⟨info, hs, hd⟩)))
  · intro info b hn hs hd hr
    rw [Load_ok hn hs hd hr]
    exact ⟨rfl, rfl⟩

/-- Witness of C9: a directory is refused, and a regular file loads. -/
theorem load_error_iff_witness :
    (Load (staticWorld (dirFS t0)) (blankModel "deck.md")).err
      = some "can not read directories" ∧
    (Load (staticWorld (dirFS t0)) (blankModel "deck.md")).err ≠ none ∧
    ((Load (staticWorld (fileFS t0 "a---b".toList)) (blankModel "deck.md")).err = none ∧
      (Load (staticWorld (fileFS t0 "a---b".toList)) (blankModel "deck.md")).m.slides
        = parseSlides "a---b".toList) :=
  ⟨by decide,
    (load_error_iff (staticWorld (dirFS t0)) (blankModel "deck.md")).2.1 ⟨t0, true⟩ rfl rfl,
    (load_error_iff (staticWorld (fileFS t0 "a---b".toList)) (blankModel "deck.md")).2.2
      ⟨t0, false⟩ "a---b".toList (by decide) rfl rfl rfl⟩

/-- C10: key dispatch.  Every key other than `"ctrl+c"`, `"q"`, `"left"`, `"right"` and `" "`
returns the model unchanged with no command; `"ctrl+c"` and `"q"` return the model unchanged
with the quit command; every key returns normally, leaves the world, the deck and every field
but the index unchanged, and changes the index only if it is `"left"`, `"right"` or `" "`. -/
theorem key_dispatch (w : World) (m : model) (key : String) :
    (key ≠ "ctrl+c" → key ≠ "q" → key ≠ "left" → key ≠ "right" → key ≠ " " →
      Update w m (.KeyMsg key) = .ok m .nil w) ∧
    Update w m (.KeyMsg "ctrl+c") = .ok m .Quit w ∧
    Update w m (.KeyMsg "q") = .ok m .Quit w ∧
    ∃ m1 cmd, Update w m (.KeyMsg key) = .ok m1 cmd w ∧
      m1.slides = m.slides ∧ m1.viewport = m.viewport ∧ m1.fileName = m.fileName ∧
      m1.date = m.date ∧ m1.author = m.author ∧
      (m1.currentSlide ≠ m.currentSlide → key = "left" ∨ key = "right" ∨ key = " ") := by
  refine ⟨?_, by simp [Update], by simp [Update], ?_⟩
  · intro h1 h2 h3 h4 h5
    simp [Update, h1, h2, h3, h4, h5]
  · simp only [Update]
    split
    · exact ⟨m, .Quit, rfl, rfl, rfl, rfl, rfl, rfl, fun h => absurd rfl h⟩
    · split
      · rename_i hk
        refine ⟨_, .nil, rfl, ?_, ?_, ?_, ?_, ?_, fun _ => Or.inl hk⟩ <;> split <;> rfl
      · split
        · rename_i hk
          refine ⟨_, .nil, rfl, ?_, ?_, ?_, ?_, ?_, fun _ => Or.inr hk⟩ <;> split <;> rfl
        · exact ⟨m, .nil, rfl, rfl, rfl, rfl, rfl, rfl, fun h => absurd rfl h⟩

/-- Witness of C10: the key `"x"` does nothing. -/
theorem key_dispatch_witness :
    "x" ≠ "ctrl+c" ∧ "x" ≠ "q" ∧ "x" ≠ "left" ∧ "x" ≠ "right" ∧ "x" ≠ " " ∧
    Update (staticWorld missingFS)
        { blankModel "deck.md" with slides := ["a".toList, "b".toList] } (.KeyMsg "x")
      = .ok { blankModel "deck.md" with slides := ["a".toList, "b".toList] } .nil
          (staticWorld missingFS) :=
  ⟨by decide, by decide, by decide, by decide, by decide,
    (key_dispatch (staticWorld missingFS)
      { blankModel "deck.md" with slides := ["a".toList, "b".toList] } "x").1
      (by decide) (by decide) (by decide) (by decide) (by decide)⟩

/-- C11: a resize event with width `w` and height `h` sets the viewport width to `w` and its
height to `h` and changes nothing else: the deck, the index, the file name, the author, the
date and the world are unchanged, and no command is issued. -/
theorem resize_sets_viewport (w : World) (m : model) (width height : Int) :
    Update w m (.WindowSizeMsg width height)
      = .ok { m with viewport := { Width := width, Height := height } } .nil w ∧
    ({ m with viewport := { Width := width, Height := height } } : model).slides = m.slides ∧
    ({ m with viewport := { Width := width, Height := height } } : model).currentSlide
      = m.currentSlide ∧
    ({ m with viewport := { Width := width, Height := height } } : model).fileName
      = m.fileName ∧
    ({ m with viewport := { Width := width, Height := height } } : model).author = m.author ∧
    ({ m with viewport := { Width := width, Height := height } } : model).date = m.date := by
  refine ⟨?_, rfl, rfl, rfl, rfl, rfl⟩
  simp [Update]

/-- C12, as stated, fails: in the state with `currentSlide` the largest `int`, `2^63 - 1`, and a
one-slide deck, the sum `currentSlide+1` wraps and `paging()` returns
`"-9223372036854775808 / 1"`, which is not the decimal rendering of `i+1 = 2^63` followed by
`" / "` and the decimal rendering of `1`. -/
theorem paging_wraps_at_max_int_counterexample :
    paging { blankModel "deck.md" with slides := ["a".toList], currentSlide := 2 ^ 63 - 1 }
      = "-9223372036854775808 / 1".toList ∧
    ¬ ∃ a b : Str,
      paging { blankModel "deck.md" with slides := ["a".toList], currentSlide := 2 ^ 63 - 1 }
        = a ++ [' ', '/', ' '] ++ b ∧
      IsDecimalOf a ((2 ^ 63 - 1 : Int) + 1) ∧
      IsDecimalOf b ((["a".toList] : List Str).length : Int) := by
  have hp : paging
      { blankModel "deck.md" with slides := ["a".toList], currentSlide := 2 ^ 63 - 1 }
      = "-9223372036854775808 / 1".toList := by decide
  refine ⟨hp, ?_⟩
  rintro ⟨a, b, h, ⟨ds, ha, hne, hdig, -, -⟩, -⟩
  have hpos : ¬ ((2 ^ 63 - 1 : Int) + 1 < 0) := by decide
  rw [if_neg hpos, List.nil_append] at ha
  subst ha
  rw [hp] at h
  cases a with
  | nil => exact hne rfl
  | cons c cs =>
    have hc : c = '-' := by
      have h1 := congrArg List.head? h
      simpa using h1.symm
    have hd := hdig c (List.mem_cons_self c cs)
    rw [hc] at hd
    exact absurd hd (by decide)

/-- C12, amended: for every state whose index `i` is an `int` smaller than the largest one,
`paging()` returns the decimal rendering of `i+1`, then `" / "`, then the decimal rendering of
`len(slides)`; in every state with `0 <= i < L` (where `L`, a slice length, is an `int`) that
holds and the displayed page number satisfies `1 <= i+1 <= L`.  In every state whatsoever the
first number shown is the decimal rendering of the Go value of `currentSlide+1`. -/
theorem paging_format (m : model) :
    (-(2 ^ 63) ≤ m.currentSlide → m.currentSlide < 2 ^ 63 - 1 →
      ∃ a b : Str, paging m = a ++ [' ', '/', ' '] ++ b ∧
        IsDecimalOf a (m.currentSlide + 1) ∧ IsDecimalOf b (m.slides.length : Int)) ∧
    (0 ≤ m.currentSlide → m.currentSlide < (m.slides.length : Int) →
      (m.slides.length : Int) < 2 ^ 63 →
      (∃ a b : Str, paging m = a ++ [' ', '/', ' '] ++ b ∧
        IsDecimalOf a (m.currentSlide + 1) ∧ IsDecimalOf b (m.slides.length : Int)) ∧
      1 ≤ m.currentSlide + 1 ∧ m.currentSlide + 1 ≤ (m.slides.length : Int)) ∧
    (∃ a b : Str, paging m = a ++ [' ', '/', ' '] ++ b ∧
      IsDecimalOf a (wrapInt (m.currentSlide + 1)) ∧
      IsDecimalOf b (m.slides.length : Int)) := by
  have hgo : ∃ a b : Str, paging m = a ++ [' ', '/', ' '] ++ b ∧
      IsDecimalOf a (wrapInt (m.currentSlide + 1)) ∧
      IsDecimalOf b (m.slides.length : Int) :=
    ⟨fmtInteger (wrapInt (m.currentSlide + 1)), fmtInteger (m.slides.length : Int), rfl,
      fmtInteger_isDecimalOf _, fmtInteger_isDecimalOf _⟩
  have hrange : -(2 ^ 63) ≤ m.currentSlide → m.currentSlide < 2 ^ 63 - 1 →
      ∃ a b : Str, paging m = a ++ [' ', '/', ' '] ++ b ∧
        IsDecimalOf a (m.currentSlide + 1) ∧ IsDecimalOf b (m.slides.length : Int) := by
    intro h0 h1
    have hw : wrapInt (m.currentSlide + 1) = m.currentSlide + 1 :=
      wrapInt_of_range (by omega) (by omega)
    rw [hw] at hgo
    exact hgo
  refine ⟨hrange, ?_, hgo⟩
  intro h0 h1 h2
  exact ⟨hrange (by omega) (by omega), by omega, by omega⟩

/-- Witness of C12, amended: the third of twelve slides is shown as `"3 / 12"`. -/
theorem paging_format_witness :
    paging { blankModel "deck.md" with
      slides := List.replicate 12 "s".toList, currentSlide := 2 } = "3 / 12".toList ∧
    (∃ a b : Str,
      paging { blankModel "deck.md" with
        slides := List.replicate 12 "s".toList, currentSlide := 2 } = a ++ [' ', '/', ' '] ++ b ∧
      IsDecimalOf a ((2 : Int) + 1) ∧
      IsDecimalOf b ((List.replicate 12 "s".toList).length : Int)) ∧
    ((∃ a b : Str,
        paging { blankModel "deck.md" with
          slides := List.replicate 12 "s".toList, currentSlide := 2 }
          = a ++ [' ', '/', ' '] ++ b ∧
        IsDecimalOf a ((2 : Int) + 1) ∧
        IsDecimalOf b ((List.replicate 12 "s".toList).length : Int)) ∧
      (1 : Int) ≤ 2 + 1 ∧ (2 : Int) + 1 ≤ ((List.replicate 12 "s".toList).length : Int)) :=
  ⟨by decide,
    (paging_format { blankModel "deck.md" with
      slides := List.replicate 12 "s".toList, currentSlide := 2 }).1 (by decide) (by decide),
    (paging_format { blankModel "deck.md" with
      slides := List.replicate 12 "s".toList, currentSlide := 2 }).2.1
      (by decide) (by decide) (by decide)⟩

/-- C13: scenario 1.  A successful `Load` of the document `"Title\n---\nBody text"` into a
model with index 0 yields the deck `["Title", "Body text"]` with index 0; the key `"right"`
moves the index to 1; `paging()` then returns `"2 / 2"`. -/
theorem scenario_title_body (w w1 : World) (m : model)
    (hload : (Load w m).err = none)
    (hread : (w.fs (w.clock + 1)).ReadFile m.fileName = .ok "Title\n---\nBody text".toList)
    (hidx : m.currentSlide = 0) :
    (Load w m).m.slides = ["Title".toList, "Body text".toList] ∧
    (Load w m).m.currentSlide = 0 ∧
    Update w1 (Load w m).m (.KeyMsg "right")
      = .ok { (Load w m).m with currentSlide := 1 } .nil w1 ∧
    paging { (Load w m).m with currentSlide := 1 } = "2 / 2".toList := by
  have hp : parseSlides "Title\n---\nBody text".toList
      = ["Title".toList, "Body text".toList] := by decide
  rw [Load_of_read hload hread, hp]
  refine ⟨rfl, hidx, ?_, ?_⟩
  · simp [Update, hidx]
  · rfl

/-- Witness of C13: the scenario from `newModel` on, in a world whose file holds the
document. -/
theorem scenario_title_body_witness :
    newModel (staticWorld (fileFS t0 "Title\n---\nBody text".toList)) ["slides", "deck.md"]
        (.ok "me") "04-11-2026"
      = .ok ((Load (staticWorld (fileFS t0 "Title\n---\nBody text".toList))
              (blankModel "deck.md")).m,
            (Load (staticWorld (fileFS t0 "Title\n---\nBody text".toList))
              (blankModel "deck.md")).w) ∧
    ((Load (staticWorld (fileFS t0 "Title\n---\nBody text".toList))
        (blankModel "deck.md")).m.slides = ["Title".toList, "Body text".toList] ∧
      (Load (staticWorld (fileFS t0 "Title\n---\nBody text".toList))
        (blankModel "deck.md")).m.currentSlide = 0 ∧
      Update (staticWorld (fileFS t0 "Title\n---\nBody text".toList))
          (Load (staticWorld (fileFS t0 "Title\n---\nBody text".toList))
            (blankModel "deck.md")).m (.KeyMsg "right")
        = .ok { (Load (staticWorld (fileFS t0 "Title\n---\nBody text".toList))
            (blankModel "deck.md")).m with currentSlide := 1 } .nil
            (staticWorld (fileFS t0 "Title\n---\nBody text".toList)) ∧
      paging { (Load (staticWorld (fileFS t0 "Title\n---\nBody text".toList))
        (blankModel "deck.md")).m with currentSlide := 1 } = "2 / 2".toList) :=
  ⟨rfl,
    scenario_title_body (staticWorld (fileFS t0 "Title\n---\nBody text".toList))
      (staticWorld (fileFS t0 "Title\n---\nBody text".toList)) (blankModel "deck.md")
      (by decide) rfl rfl⟩

/-- C14: scenario 2.  For every document `D` without an occurrence of `"---"`, a successful
`Load` yields a deck of exactly one slide, which is `D` without its leading and trailing
`'\n'`/`'\r'` units; from index 0 the keys `"left"` and `"right"` both return that model
unchanged. -/
theorem scenario_no_delimiter (w w1 : World) (m : model) (D : Str)
    (hload : (Load w m).err = none)
    (hread : (w.fs (w.clock + 1)).ReadFile m.fileName = .ok D)
    (hno : ¬ delimiter <:+: D) (hidx : m.currentSlide = 0) :
    ∃ s, (Load w m).m.slides = [s] ∧ StrippedOf s D ∧
      (Load w m).m.currentSlide = 0 ∧
      Update w1 (Load w m).m (.KeyMsg "left") = .ok (Load w m).m .nil w1 ∧
      Update w1 (Load w m).m (.KeyMsg "right") = .ok (Load w m).m .nil w1 := by
  refine ⟨TrimLeft (TrimRight D crlf) crlf, ?_, trim_strippedOf D, ?_, ?_, ?_⟩
  · rw [Load_of_read hload hread]
    show parseSlides D = _
    unfold parseSlides
    rw [Split_of_absent hno]
    rfl
  · rw [Load_of_read hload hread]
    exact hidx
  · rw [Load_of_read hload hread]
    simp [Update, hidx]
  · rw [Load_of_read hload hread]
    have hs : parseSlides D = [TrimLeft (TrimRight D crlf) crlf] := by
      unfold parseSlides
      rw [Split_of_absent hno]
      rfl
    simp [Update, hidx, hs]

/-- Witness of C14: the document `"\nonly - one -- slide\r\n"`. -/
theorem scenario_no_delimiter_witness :
    (Load (staticWorld (fileFS t0 "\nonly - one -- slide\r\n".toList))
      (blankModel "deck.md")).err = none ∧
    ¬ delimiter <:+: "\nonly - one -- slide\r\n".toList ∧
    (Load (staticWorld (fileFS t0 "\nonly - one -- slide\r\n".toList))
      (blankModel "deck.md")).m.slides = ["only - one -- slide".toList] ∧
    ∃ s, (Load (staticWorld (fileFS t0 "\nonly - one -- slide\r\n".toList))
        (blankModel "deck.md")).m.slides = [s] ∧
      StrippedOf s "\nonly - one -- slide\r\n".toList ∧
      (Load (staticWorld (fileFS t0 "\nonly - one -- slide\r\n".toList))
        (blankModel "deck.md")).m.currentSlide = 0 ∧
      Update (staticWorld missingFS)
          (Load (staticWorld (fileFS t0 "\nonly - one -- slide\r\n".toList))
            (blankModel "deck.md")).m (.KeyMsg "left")
        = .ok (Load (staticWorld (fileFS t0 "\nonly - one -- slide\r\n".toList))
            (blankModel "deck.md")).m .nil (staticWorld missingFS) ∧
      Update (staticWorld missingFS)
          (Load (staticWorld (fileFS t0 "\nonly - one -- slide\r\n".toList))
            (blankModel "deck.md")).m (.KeyMsg "right")
        = .ok (Load (staticWorld (fileFS t0 "\nonly - one -- slide\r\n".toList))
            (blankModel "deck.md")).m .nil (staticWorld missingFS) :=
  ⟨by decide, by decide, by decide,
    scenario_no_delimiter (staticWorld (fileFS t0 "\nonly - one -- slide\r\n".toList))
      (staticWorld missingFS) (blankModel "deck.md") "\nonly - one -- slide\r\n".toList
      (by decide) rfl (by decide) rfl⟩

/-- C15, as stated, fails in two ways.  With `left` a lone escape character (rendered width
0), `right = "ab"` and `width = 5`, `JoinHorizontal` returns the escape character, three blanks
and `"ab"`, whose rendered width is 1: the blanks and the `a` are read as the rest of the
escape sequence that `left` opened.  With `left` the single byte `E6` (rendered width 1),
`right` the two bytes `97 A5` (rendered width 2) and `width = 3`, it returns the three bytes
`E6 97 A5`, which are one rune of width 2: `right` completes the sequence `left` began. -/
theorem joinHorizontal_width_counterexample :
    ('\n' ∉ ['\x1b'] ∧ '\n' ∉ "ab".toList ∧
      (Width cellWidth ['\x1b'] : Int) + (Width cellWidth "ab".toList : Int) ≤ 5 ∧
      JoinHorizontal cellWidth ['\x1b'] "ab".toList 5 = ['\x1b', ' ', ' ', ' ', 'a', 'b'] ∧
      Width cellWidth (JoinHorizontal cellWidth ['\x1b'] "ab".toList 5) = 1 ∧
      (Width cellWidth (JoinHorizontal cellWidth ['\x1b'] "ab".toList 5) : Int) ≠ 5) ∧
    ('\n' ∉ ['\xe6'] ∧ '\n' ∉ ['\x97', '\xa5'] ∧
      Width cellWidth ['\xe6'] = 1 ∧ Width cellWidth ['\x97', '\xa5'] = 2 ∧
      (Width cellWidth ['\xe6'] : Int) + (Width cellWidth ['\x97', '\xa5'] : Int) ≤ 3 ∧
      JoinHorizontal cellWidth ['\xe6'] ['\x97', '\xa5'] 3 = ['\xe6', '\x97', '\xa5'] ∧
      Width cellWidth (JoinHorizontal cellWidth ['\xe6'] ['\x97', '\xa5'] 3) = 2 ∧
      (Width cellWidth (JoinHorizontal cellWidth ['\xe6'] ['\x97', '\xa5'] 3) : Int) ≠ 3) := by
  refine ⟨⟨by decide, by decide, by decide, by decide, by decide, by decide⟩,
    ⟨by decide, by decide, by decide, by decide, by decide, by decide, by decide, by decide⟩⟩

/-- C15, amended: for all single-line `left` and `right` and every `width` with
`Width(left) + Width(right) <= width`, `JoinHorizontal(left, right, width)` is `left`, then
`width - Width(left) - Width(right)` blanks, then `right`, whatever the length of `left`; its
rendered width is exactly `width` whenever `left` ends neither inside an unterminated escape
sequence nor inside an incomplete UTF-8 sequence (a blank being one cell wide). -/
theorem joinHorizontal_flush (runeWidth : Char → Nat) (left right : Str) (width : Int)
    (hl : '\n' ∉ left) (hr : '\n' ∉ right) (hsp : runeWidth ' ' = 1)
    (hfit : (Width runeWidth left : Int) + (Width runeWidth right : Int) ≤ width) :
    JoinHorizontal runeWidth left right width
      = left ++ List.replicate
          (width - (Width runeWidth left : Int) - (Width runeWidth right : Int)).toNat ' '
        ++ right ∧
    (ansiState false (decodeRunes left) = false → endsIncomplete 0 left = false →
      (Width runeWidth (JoinHorizontal runeWidth left right width) : Int) = width) := by
  refine ⟨JoinHorizontal_single_line runeWidth width hl hfit, ?_⟩
  intro hclosed hwhole
  exact Width_JoinHorizontal runeWidth width hl hr hsp hfit hclosed hwhole

/-- Witness of C15, amended: a faint segment holding the three bytes of one wide rune (two
cells) and the page indicator `"2 / 2"` in twelve columns. -/
theorem joinHorizontal_flush_witness :
    '\n' ∉ "\x1b[2m\xe6\x97\xa5\x1b[0m".toList ∧ '\n' ∉ "2 / 2".toList ∧ cellWidth ' ' = 1 ∧
    Width cellWidth "\x1b[2m\xe6\x97\xa5\x1b[0m".toList = 2 ∧
    (Width cellWidth "\x1b[2m\xe6\x97\xa5\x1b[0m".toList : Int)
      + (Width cellWidth "2 / 2".toList : Int) ≤ 12 ∧
    ansiState false (decodeRunes "\x1b[2m\xe6\x97\xa5\x1b[0m".toList) = false ∧
    endsIncomplete 0 "\x1b[2m\xe6\x97\xa5\x1b[0m".toList = false ∧
    JoinHorizontal cellWidth "\x1b[2m\xe6\x97\xa5\x1b[0m".toList "2 / 2".toList 12
      = "\x1b[2m\xe6\x97\xa5\x1b[0m     2 / 2".toList ∧
    (Width cellWidth
      (JoinHorizontal cellWidth "\x1b[2m\xe6\x97\xa5\x1b[0m".toList "2 / 2".toList 12)
      : Int) = 12 :=
  ⟨by decide, by decide, by decide, by decide, by decide, by decide, by decide, by decide,
    (joinHorizontal_flush cellWidth "\x1b[2m\xe6\x97\xa5\x1b[0m".toList "2 / 2".toList 12
      (by decide) (by decide) (by decide) (by decide)).2 (by decide) (by decide)⟩

/-- C16 fails on the code: with `top = "a"`, `bottom = "b"` and `height = 3` the two heights
add up to 2, yet `JoinVertical` returns `"a\n b"`, which has two rows and not three, and whose
last row is `" b"`, the blank row of the padded top followed by `bottom`, and not `"b"`; with
`height = 2` it returns the single row `"ab"`. -/
theorem joinVertical_one_row_short :
    (Height "a".toList : Int) + (Height "b".toList : Int) ≤ 3 ∧
    JoinVertical asciiWidth "a".toList "b".toList 3 = "a\n b".toList ∧
    rows (JoinVertical asciiWidth "a".toList "b".toList 3) = ["a".toList, " b".toList] ∧
    Height (JoinVertical asciiWidth "a".toList "b".toList 3) = 2 ∧
    JoinVertical asciiWidth "a".toList "b".toList 2 = "ab".toList ∧
    Height (JoinVertical asciiWidth "a".toList "b".toList 2) = 1 := by
  refine ⟨by decide, by decide, by decide, by decide, by decide, by decide⟩

/-- C17: `Load` replaces the deck and is deterministic in the file content.  Whatever the two
models held before and whatever else the two worlds contain, two successful loads that read the
same content `c` leave the same slide sequence, the one parsed from `c`. -/
theorem load_deterministic (w1 w2 : World) (m1 m2 : model) (c : Str)
    (h1 : (Load w1 m1).err = none) (h2 : (Load w2 m2).err = none)
    (r1 : (w1.fs (w1.clock + 1)).ReadFile m1.fileName = .ok c)
    (r2 : (w2.fs (w2.clock + 1)).ReadFile m2.fileName = .ok c) :
    (Load w1 m1).m.slides = (Load w2 m2).m.slides ∧
    (Load w1 m1).m.slides = parseSlides c := by
  rw [Load_of_read h1 r1, Load_of_read h2 r2]
  exact ⟨rfl, rfl⟩

/-- Witness of C17: the same file loaded twice in a row, the first time over an old deck with
the cursor on its second slide. -/
theorem load_deterministic_witness :
    (Load (staticWorld (fileFS t0 "a\n---\nb".toList))
      { blankModel "deck.md" with slides := ["x".toList, "y".toList], currentSlide := 1 }).m.slides
      = ["a".toList, "b".toList] ∧
    (Load (staticWorld (fileFS t0 "a\n---\nb".toList))
        { blankModel "deck.md" with
          slides := ["x".toList, "y".toList], currentSlide := 1 }).m.slides
      = (Load
          (Load (staticWorld (fileFS t0 "a\n---\nb".toList))
            { blankModel "deck.md" with
              slides := ["x".toList, "y".toList], currentSlide := 1 }).w
          (Load (staticWorld (fileFS t0 "a\n---\nb".toList))
            { blankModel "deck.md" with
              slides := ["x".toList, "y".toList], currentSlide := 1 }).m).m.slides :=
  ⟨by decide,
    (load_deterministic (staticWorld (fileFS t0 "a\n---\nb".toList))
      (Load (staticWorld (fileFS t0 "a\n---\nb".toList))
        { blankModel "deck.md" with
          slides := ["x".toList, "y".toList], currentSlide := 1 }).w
      { blankModel "deck.md" with slides := ["x".toList, "y".toList], currentSlide := 1 }
      (Load (staticWorld (fileFS t0 "a\n---\nb".toList))
        { blankModel "deck.md" with
          slides := ["x".toList, "y".toList], currentSlide := 1 }).m
      "a\n---\nb".toList (by decide) (by decide) rfl rfl).1⟩

/-- C18 fails on the code: the file is present while `newModel` loads it, missing at the stat of
`Init`, whose error is discarded and leaves `fileInfo` nil, and present again at the first
timer tick; the stat of that tick succeeds and `Update` dereferences the nil baseline. -/
theorem tick_panics_after_failed_init_stat :
    newModel flickeringWorld ["slides", "deck.md"] (.ok "me") "04-11-2026"
      = .ok ({ blankModel "deck.md" with slides := ["a".toList, "b".toList] },
          { flickeringWorld with clock := 2, loads := 1 }) ∧
    Init { flickeringWorld with clock := 2, loads := 1 }
        { blankModel "deck.md" with slides := ["a".toList, "b".toList] }
      = (.fileWatch, { flickeringWorld with clock := 3, loads := 1, fileInfo := none }) ∧
    (flickeringWorld.fs 3).Stat "deck.md" = .ok ⟨t0, false⟩ ∧
    run (Init { flickeringWorld with clock := 2, loads := 1 }
          { blankModel "deck.md" with slides := ["a".toList, "b".toList] }).2
        { blankModel "deck.md" with slides := ["a".toList, "b".toList] } [.fileWatchMsg]
      = .panic { blankModel "deck.md" with slides := ["a".toList, "b".toList] }
          { flickeringWorld with clock := 4, loads := 1, fileInfo := none } :=
  ⟨rfl, rfl, rfl, rfl⟩

/-- C19: after a successful `Load` of the document text `D`, no slide contains the delimiter
`"---"` as a substring. -/
theorem load_slides_without_delimiter (w : World) (m : model) (D : Str)
    (hload : (Load w m).err = none)
    (hread : (w.fs (w.clock + 1)).ReadFile m.fileName = .ok D) :
    ∀ s ∈ (Load w m).m.slides, ¬ delimiter <:+: s := by
  rw [Load_of_read hload hread]
  intro s hs
  have hs' : s ∈ parseSlides D := hs
  unfold parseSlides at hs'
  obtain ⟨f, hf, rfl⟩ := List.mem_map.1 hs'
  intro hin
  exact Split_fragment_absent D f hf (hin.trans (trim_within f))

/-- Witness of C19: the document `"-\n---\n--\n-----\n-"`, whose slides are `"-"`, `"--"` and
`"--\n-"`. -/
theorem load_slides_without_delimiter_witness :
    (Load (staticWorld (fileFS t0 "-\n---\n--\n-----\n-".toList))
      (blankModel "deck.md")).m.slides = ["-".toList, "--".toList, "--\n-".toList] ∧
    ∀ s ∈ (Load (staticWorld (fileFS t0 "-\n---\n--\n-----\n-".toList))
      (blankModel "deck.md")).m.slides, ¬ delimiter <:+: s :=
  ⟨by decide,
    load_slides_without_delimiter (staticWorld (fileFS t0 "-\n---\n--\n-----\n-".toList))
      (blankModel "deck.md") "-\n---\n--\n-----\n-".toList (by decide) rfl⟩

/-- C20: `Load` is atomic on failure and touches only the deck.  Whenever it returns an error
the model, and so its deck, is exactly what it was before the call; on every call the index,
the file name, the author, the date and the viewport are unchanged. -/
theorem load_atomic (w : World) (m : model) :
    ((Load w m).err ≠ none → (Load w m).m.slides = m.slides ∧ (Load w m).m = m) ∧
    (Load w m).m.currentSlide = m.currentSlide ∧ (Load w m).m.fileName = m.fileName ∧
    (Load w m).m.author = m.author ∧ (Load w m).m.date = m.date ∧
    (Load w m).m.viewport = m.viewport := by
  refine ⟨?_, Load_frame w m⟩
  intro h
  cases he : (Load w m).err with
  | none => exact absurd he h
  | some e =>
    rw [Load_err_some w m e he]
    exact ⟨rfl, rfl⟩

/-- Witness of C20: a reload of a path that has become a directory leaves the old deck. -/
theorem load_atomic_witness :
    (Load (staticWorld (dirFS t1))
      { blankModel "deck.md" with slides := ["x".toList, "y".toList], currentSlide := 1 }).err
      ≠ none ∧
    (Load (staticWorld (dirFS t1))
      { blankModel "deck.md" with
        slides := ["x".toList, "y".toList], currentSlide := 1 }).m.slides
      = ["x".toList, "y".toList] :=
  ⟨by decide,
    ((load_atomic (staticWorld (dirFS t1))
      { blankModel "deck.md" with slides := ["x".toList, "y".toList], currentSlide := 1 }).1
      (by decide)).1⟩

end Slides
